import Mathlib

/-!
Verification of the encrypted-messenger core (TypeScript sources) against its
natural-language specification.  The TypeScript functions are shallowly
embedded: byte arrays become `List Nat` (each entry a byte value), JavaScript
`Map`s become insertion-ordered association lists, thrown exceptions become
`Except String`, and the platform crypto primitives (HMAC-SHA-256, X25519,
Ed25519, AES-256-GCM), which are external libraries and not part of the
repository, are a parameter structure `CryptoPrims`.  Randomness and
`Date.now()` are passed as explicit arguments.
-/

namespace Messenger

/-- Byte strings are lists of byte values. -/
abbrev Bytes := List Nat

/-- List of `n` zero bytes (`new Uint8Array(n)`). -/
def zeros (n : Nat) : Bytes := List.replicate n 0

/-- Semantics of `buf.set(src, offset)` on a `Uint8Array`: overwrite the bytes
of `buf` from `offset` with `src` (in every call sites of the sources the
write fits inside the buffer). -/
def jsSetBytes (buf src : Bytes) (offset : Nat) : Bytes :=
  buf.take offset ++ src ++ buf.drop (offset + src.length)

/-- Semantics of `buf.slice(a, b)` for `0 ≤ a ≤ b`. -/
def jsSlice (buf : Bytes) (a b : Nat) : Bytes := (buf.drop a).take (b - a)

/-- Write `v` into the last byte of `buf` (`buf[buf.length - 1] = v`);
`Uint8Array` stores modulo 256. -/
def setLastByte (buf : Bytes) (v : Nat) : Bytes :=
  buf.take (buf.length - 1) ++ [v % 256]

/-- Big-endian 4-byte encoding, as `DataView.setUint32(_, n, false)` writes a
number already reduced modulo 2^32. -/
def be32 (n : Nat) : Bytes :=
  [n / 16777216 % 256, n / 65536 % 256, n / 256 % 256, n % 256]

/-- Big-endian decode of the first four bytes, as
`DataView.getUint32(0, false)` reads. -/
def be32dec (b : Bytes) : Nat :=
  (b.getD 0 0) * 16777216 + (b.getD 1 0) * 65536 + (b.getD 2 0) * 256 + b.getD 3 0

/-- Little-endian 8-byte encoding: what `new BigUint64Array(buf)[0] = t`
stores on the (little-endian) platforms Node.js and the browsers run on.
`BigUint64Array` uses the platform byte order, not big-endian. -/
def le64 (n : Nat) : Bytes :=
  [n % 256, n / 256 % 256, n / 65536 % 256, n / 16777216 % 256,
   n / 4294967296 % 256, n / 1099511627776 % 256,
   n / 281474976710656 % 256, n / 72057594037927936 % 256]

/-- Little-endian decode of eight bytes, as `new BigUint64Array(buf)[0]`
reads them on a little-endian platform. -/
def le64dec (b : Bytes) : Nat :=
  b.getD 0 0 + (b.getD 1 0) * 256 + (b.getD 2 0) * 65536 +
  (b.getD 3 0) * 16777216 + (b.getD 4 0) * 4294967296 +
  (b.getD 5 0) * 1099511627776 + (b.getD 6 0) * 281474976710656 +
  (b.getD 7 0) * 72057594037927936

/-- Big-endian decode of eight bytes (what a conforming big-endian parser
would read from the same wire bytes). -/
def be64dec (b : Bytes) : Nat :=
  (b.getD 0 0) * 72057594037927936 + (b.getD 1 0) * 281474976710656 +
  (b.getD 2 0) * 1099511627776 + (b.getD 3 0) * 4294967296 +
  (b.getD 4 0) * 16777216 + (b.getD 5 0) * 65536 + (b.getD 6 0) * 256 + b.getD 7 0

/-- Bytes of an ASCII string, as `new TextEncoder().encode(s)` produces for
the pure-ASCII strings the sources use. -/
def asciiBytes (s : String) : Bytes := s.data.map Char.toNat

/-- A JavaScript number as the ratchet counters hold it: the sources never
initialize `sendCounter`/`receiveCounter` (`createRatchetState` omits them),
so the value can be `undefined`, and arithmetic on `undefined` yields `NaN`. -/
inductive JsNum where
  | undef : JsNum
  | nan : JsNum
  | num : Nat → JsNum
deriving DecidableEq, Repr

/-- Postfix `x++` on a possibly-undefined JavaScript number: returns the old
value coerced to a number together with the stored successor.
`undefined++` stores and yields `NaN`; `NaN++` stays `NaN`. -/
def jsPostIncr : JsNum → JsNum × JsNum
  | .undef => (.nan, .nan)
  | .nan => (.nan, .nan)
  | .num n => (.num n, .num (n + 1))

/-- Strict inequality `a !== b` between two counter values. `NaN !== x` and
`x !== NaN` are true (even for `x = NaN`); `undefined !== undefined` is
false; a number and `undefined` differ. -/
def jsStrictNeq : JsNum → JsNum → Bool
  | .nan, _ => true
  | _, .nan => true
  | .undef, .undef => false
  | .undef, .num _ => true
  | .num _, .undef => true
  | .num a, .num b => a != b

/-- Coercion `ToUint32` applied by `DataView.setUint32`: `NaN` and
`undefined` become 0, a number is reduced modulo 2^32. -/
def jsToUint32 : JsNum → Nat
  | .num n => n % 4294967296
  | _ => 0

/-- The platform cryptographic primitives (noble hashes / WebCrypto), which
live outside the repository.  AES-GCM is split into the ciphertext and its
16-byte tag exactly as `encryption.ts` returns them; decryption is an
arbitrary partial function (its value never matters for the settled claims).
The length fields record the fixed output sizes of the real primitives. -/
structure CryptoPrims where
  hmacSha256 : Bytes → Bytes → Bytes
  hmac_length : ∀ k d, (hmacSha256 k d).length = 32
  x25519 : Bytes → Bytes → Bytes
  x25519_length : ∀ a b, (x25519 a b).length = 32
  ed25519Sign : Bytes → Bytes → Bytes
  sign_length : ∀ sk m, (ed25519Sign sk m).length = 64
  ed25519Verify : Bytes → Bytes → Bytes → Bool
  aesGcmEncrypt : Bytes → Bytes → Bytes → Option Bytes → Bytes × Bytes
  aesGcmEncrypt_ct_length : ∀ k iv pt aad, (aesGcmEncrypt k iv pt aad).1.length = pt.length
  aesGcmEncrypt_tag_length : ∀ k iv pt aad, (aesGcmEncrypt k iv pt aad).2.length = 16
  aesGcmDecrypt : Bytes → Bytes → Bytes → Bytes → Option Bytes → Option Bytes

/-- A concrete instance of the primitives, used to evaluate the embedded code
on explicit inputs (the settled claims are about control flow, byte layout
and cache bookkeeping, none of which depend on the primitive's values). -/
def trivialPrims : CryptoPrims where
  hmacSha256 := fun _ _ => List.replicate 32 0
  hmac_length := fun _ _ => List.length_replicate 32 0
  x25519 := fun _ _ => List.replicate 32 0
  x25519_length := fun _ _ => List.length_replicate 32 0
  ed25519Sign := fun _ _ => List.replicate 64 0
  sign_length := fun _ _ => List.length_replicate 64 0
  ed25519Verify := fun _ _ _ => true
  aesGcmEncrypt := fun _ _ pt _ => (pt, List.replicate 16 0)
  aesGcmEncrypt_ct_length := fun _ _ _ _ => rfl
  aesGcmEncrypt_tag_length := fun _ _ _ _ => List.length_replicate 16 0
  aesGcmDecrypt := fun _ _ ct _ _ => some ct

/-! ## HKDF (crypto/hkdf.ts)

`hkdfExtract(salt, ikm) = HMAC(salt ?? zeros(32), ikm)`.

`hkdfExpand` reuses one scratch buffer `temp` of size `32 + info.length + 1`
across iterations.  For block `i = 1` the code writes `info` at offset 0 and
the counter into the last byte, then feeds `temp.slice(32)` to HMAC — which
drops the info entirely whenever `info.length ≤ 32`.  For blocks `i ≥ 2` it
writes the previous block at offset 0 and `info` at offset 32 and feeds the
whole buffer, which matches RFC 5869.  The embedding threads `temp` exactly
as the loop does. -/

/-- Extract phase: `hmac(sha256, salt ?? new Uint8Array(32), ikm)`. -/
def hkdfExtract (P : CryptoPrims) (salt : Option Bytes) (ikm : Bytes) : Bytes :=
  P.hmacSha256 (salt.getD (zeros 32)) ikm

/-- One loop of `hkdfExpand`: `fuel` counts the remaining iterations, `i` is
the loop counter (starting at 1), `temp` the scratch buffer, `output` the
bytes emitted so far (the JS code writes into a preallocated buffer at
`offset = output.length`, truncating the final block via `copyLength`). -/
def hkdfExpandIter (P : CryptoPrims) (prk info : Bytes) (len : Nat) :
    Nat → Nat → Bytes → Bytes → Bytes
  | 0, _, _, output => output
  | fuel + 1, i, temp, output =>
    let temp1 := if 1 < i then
        jsSetBytes temp (jsSlice output (output.length - 32) output.length) 0
      else temp
    let temp2 := jsSetBytes temp1 info (if 1 < i then 32 else 0)
    let temp3 := setLastByte temp2 i
    let input := if 1 < i then temp3 else temp3.drop 32
    let t := P.hmacSha256 prk input
    let copyLength := min 32 (len - output.length)
    hkdfExpandIter P prk info len fuel (i + 1) temp3 (output ++ t.take copyLength)

/-- Output bytes of `hkdfExtract` followed by `hkdfExpand` (the in-range
case; the guards live in `hkdf`). -/
def hkdfBytes (P : CryptoPrims) (ikm : Bytes) (salt : Option Bytes)
    (info : Bytes) (len : Nat) : Bytes :=
  hkdfExpandIter P (hkdfExtract P salt ikm) info len ((len + 31) / 32) 1
    (zeros (32 + info.length + 1)) []

/-- Full `hkdf`: the zero-length guard of `hkdf` and the overlong guard of
`hkdfExpand` throw; otherwise extract-then-expand. -/
def hkdf (P : CryptoPrims) (ikm : Bytes) (salt : Option Bytes)
    (info : Bytes) (len : Nat) : Except String Bytes :=
  if len = 0 then .error "HKDF output length must be > 0"
  else if 255 * 32 < len then .error "HKDF output length too large"
  else .ok (hkdfBytes P ikm salt info len)

/-- Derivation `deriveRootKey(ss) = hkdf(ss, null, HKDF_ROOT_KEY_INFO, 32)`;
at length 32 the guards of `hkdf` cannot fire. -/
def deriveRootKey (P : CryptoPrims) (ss : Bytes) : Bytes :=
  hkdfBytes P ss none (asciiBytes "SecureMessenger-RootKey") 32

/-- Derivation `deriveChainKey(rootKey, info?)`; the default info string is
`HKDF_CHAIN_KEY_INFO`. -/
def deriveChainKey (P : CryptoPrims) (rootKey : Bytes) (info : Option Bytes) : Bytes :=
  hkdfBytes P rootKey none (info.getD (asciiBytes "SecureMessenger-ChainKey")) 32

/-- Derivation `deriveMessageKey(chainKey)`: 64 bytes split into the message
(encryption) key and the next chain key. -/
def deriveMessageKey (P : CryptoPrims) (chainKey : Bytes) : Bytes × Bytes :=
  let out := hkdfBytes P chainKey none (asciiBytes "SecureMessenger-MessageKey") 64
  (out.take 32, (out.drop 32).take 32)

/-- Derivation of the MAC subkey: `hkdf(messageKeyBytes, null, 'mac-key', 32)`. -/
def deriveMacKey (P : CryptoPrims) (messageKeyBytes : Bytes) : Bytes :=
  hkdfBytes P messageKeyBytes none (asciiBytes "mac-key") 32

/-! ## Ratchet state (crypto/types.ts, crypto/ratchet.ts) -/

/-- A chain key with its next message index. -/
structure ChainKey where
  key : Bytes
  index : Nat
deriving DecidableEq, Repr

/-- A derived per-message key (`MessageKey` of types.ts). -/
structure MessageKey where
  encryptionKey : Bytes
  macKey : Bytes
  iv : Bytes
  index : Nat
deriving DecidableEq, Repr

/-- An X25519 key pair. -/
structure EphemeralKeyPair where
  publicKey : Bytes
  privateKey : Bytes
deriving DecidableEq, Repr

/-- A JavaScript `Map<number, MessageKey>` as an insertion-ordered
association list (JS `Map` preserves insertion order and holds one value per
key). -/
abbrev SkippedMap := List (Nat × MessageKey)

/-- Semantics of `map.get(k)`: the entry stored under `k` (a JS `Map` holds
at most one entry per key). -/
def mapGet : SkippedMap → Nat → Option MessageKey
  | [], _ => none
  | p :: rest, k => if p.1 = k then some p.2 else mapGet rest k

/-- Semantics of `map.set(k, v)`: update the entry in place when the key
exists (keeping its position in insertion order), append otherwise. -/
def mapSet : SkippedMap → Nat → MessageKey → SkippedMap
  | [], k, v => [(k, v)]
  | p :: rest, k, v => if p.1 = k then (k, v) :: rest else p :: mapSet rest k v

/-- Semantics of `map.delete(k)`: remove the entry stored under `k`. -/
def mapDelete : SkippedMap → Nat → SkippedMap
  | [], _ => []
  | p :: rest, k => if p.1 = k then rest else p :: mapDelete rest k

/-- The ratchet state of types.ts.  `sendCounter` and `receiveCounter` are
declared as numbers there, but `createRatchetState` never initializes them,
so they carry `JsNum` (possibly `undefined`). -/
structure RatchetState where
  rootKey : Bytes
  sendingChainKey : Option ChainKey
  receivingChainKey : Option ChainKey
  sendingEphemeralKey : Option EphemeralKeyPair
  receivingEphemeralPublicKey : Option Bytes
  sendCounter : JsNum
  receiveCounter : JsNum
  skippedMessageKeys : SkippedMap
  previousChainLength : Nat
deriving DecidableEq, Repr

/-- Embedding of `createRatchetState`: only `rootKey` (32 zero bytes),
`skippedMessageKeys` and `previousChainLength` are set; every other field —
the counters included — is left `undefined`. -/
def createRatchetState : RatchetState where
  rootKey := zeros 32
  sendingChainKey := none
  receivingChainKey := none
  sendingEphemeralKey := none
  receivingEphemeralPublicKey := none
  sendCounter := .undef
  receiveCounter := .undef
  skippedMessageKeys := []
  previousChainLength := 0

/-- Embedding of `initializeRatchet`: installs the root key and the optional
ephemeral keys, resets `previousChainLength`. -/
def initializeRatchet (state : RatchetState) (rootKey : Bytes)
    (sendingEphemeralKey : Option EphemeralKeyPair)
    (receivingEphemeralPublicKey : Option Bytes) : RatchetState :=
  { state with
    rootKey := rootKey
    sendingEphemeralKey := sendingEphemeralKey.orElse fun _ => state.sendingEphemeralKey
    receivingEphemeralPublicKey :=
      receivingEphemeralPublicKey.orElse fun _ => state.receivingEphemeralPublicKey
    previousChainLength := 0 }

/-- Embedding of the constant-time byte comparison of ratchet.ts: the length
check followed by an or-fold of the bytewise xors. -/
def constantTimeEqual (a b : Bytes) : Bool :=
  a.length == b.length &&
    ((a.zip b).foldl (fun r p => r ||| (p.1 ^^^ p.2)) 0) == 0

/-- Embedding of `ratchetEncrypt` (the sending step).  `freshEphemeral` is
the value `generateEphemeralKeyPair()` would return, `tNow` the value of
`Date.now()` interpolated into the chain-key info string.  The chain-length
throw happens after the state update, as in the source. -/
def ratchetEncrypt (P : CryptoPrims) (state : RatchetState)
    (freshEphemeral : EphemeralKeyPair) (tNow : Nat) :
    Except String (MessageKey × RatchetState) := do
  let state ←
    match state.sendingChainKey with
    | some _ => pure state
    | none =>
      let state := match state.sendingEphemeralKey with
        | some _ => state
        | none => { state with sendingEphemeralKey := some freshEphemeral }
      let chainKeyBytes := deriveChainKey P state.rootKey
        (some (asciiBytes ("sending-" ++ toString tNow)))
      pure { state with sendingChainKey := some ⟨chainKeyBytes, 0⟩ }
  match state.sendingChainKey with
  | none => .error "unreachable"
  | some sck =>
    let (messageKeyBytes, nextChainKey) := deriveMessageKey P sck.key
    let macKey := deriveMacKey P messageKeyBytes
    let messageKey : MessageKey :=
      ⟨messageKeyBytes, macKey, zeros 12, sck.index⟩
    let state := { state with sendingChainKey := some ⟨nextChainKey, sck.index + 1⟩ }
    if 4294967295 ≤ sck.index + 1 then
      .error "Chain length exceeded, must perform new handshake"
    else
      pure (messageKey, state)

/-- The while loop of `ratchetDecrypt` that derives the skipped message
keys: `fuel` is `messageNumber - currentIndex`, kept in step with the
invariant `i + fuel = messageNumber`.  A key is stored only under the guard
`currentIndex < messageNumber - 1` of the source. -/
def skipLoop (P : CryptoPrims) (messageNumber : Nat) :
    Nat → Bytes → Nat → SkippedMap → Bytes × SkippedMap
  | 0, currentKey, _, cache => (currentKey, cache)
  | fuel + 1, currentKey, i, cache =>
    let (messageKeyBytes, nextChainKey) := deriveMessageKey P currentKey
    let cache' :=
      if i < messageNumber - 1 then
        mapSet cache i ⟨messageKeyBytes, deriveMacKey P messageKeyBytes, zeros 12, i⟩
      else cache
    skipLoop P messageNumber fuel nextChainKey (i + 1) cache'

/-- Embedding of `ratchetDecrypt` (the receiving step).  `tNow` is the
`Date.now()` interpolated into the receiving chain-key info string; the
fourth source argument `_previousChainLength` is unused by the code and
omitted here. -/
def ratchetDecrypt (P : CryptoPrims) (state : RatchetState)
    (dhPublicKey : Bytes) (messageNumber : Nat) (tNow : Nat) :
    Except String (MessageKey × RatchetState) := do
  let isNewChain :=
    match state.receivingEphemeralPublicKey with
    | none => true
    | some pk => !constantTimeEqual pk dhPublicKey
  let state ←
    if isNewChain then do
      let prevLen := (state.receivingChainKey.map ChainKey.index).getD 0
      match state.sendingEphemeralKey with
      | none => .error "Cannot ratchet: no sending ephemeral key"
      | some eph =>
        let sharedSecret := P.x25519 eph.privateKey dhPublicKey
        let newRoot := deriveRootKey P (state.rootKey ++ sharedSecret)
        let chainKeyBytes := deriveChainKey P newRoot
          (some (asciiBytes ("receiving-" ++ toString tNow)))
        pure { state with
          previousChainLength := prevLen
          rootKey := newRoot
          receivingChainKey := some ⟨chainKeyBytes, 0⟩
          receivingEphemeralPublicKey := some dhPublicKey }
    else pure state
  if messageNumber < state.previousChainLength then
    match mapGet state.skippedMessageKeys messageNumber with
    | some skippedKey =>
      pure (skippedKey,
        { state with
          skippedMessageKeys := mapDelete state.skippedMessageKeys messageNumber })
    | none => .error "Message from old chain, key not available"
  else
    match state.receivingChainKey with
    | none => .error "No receiving chain key available"
    | some rck => do
      let state ←
        if rck.index < messageNumber then
          if 1000 < messageNumber - rck.index then
            .error "Too many skipped messages"
          else
            let (currentKey, cache) := skipLoop P messageNumber
              (messageNumber - rck.index) rck.key rck.index state.skippedMessageKeys
            pure { state with
              receivingChainKey := some ⟨currentKey, messageNumber⟩
              skippedMessageKeys := cache }
        else pure state
      match state.receivingChainKey with
      | none => .error "unreachable"
      | some rck => do
        let (messageKeyBytes, nextChainKey) := deriveMessageKey P rck.key
        let macKey := deriveMacKey P messageKeyBytes
        let messageKey : MessageKey := ⟨messageKeyBytes, macKey, zeros 12, rck.index⟩
        pure (messageKey,
          { state with receivingChainKey := some ⟨nextChainKey, rck.index + 1⟩ })

/-! ## AEAD wrappers (crypto/encryption.ts) -/

/-- Embedding of `encrypt(plaintext, key, iv?, additionalData?)`: the size
guards followed by AES-256-GCM.  `freshIv` is the `randomBytes(12)` drawn
when no IV is passed.  Returns `(ciphertext, tag, iv)`. -/
def encrypt (P : CryptoPrims) (plaintext key : Bytes) (iv : Option Bytes)
    (freshIv : Bytes) (aad : Option Bytes) :
    Except String (Bytes × Bytes × Bytes) :=
  if key.length ≠ 32 then .error "Invalid encryption key size"
  else if 1048576 < plaintext.length then .error "Message too large"
  else
    let actualIv := iv.getD freshIv
    if actualIv.length ≠ 12 then .error "Invalid IV size"
    else
      let (ct, tag) := P.aesGcmEncrypt key actualIv plaintext aad
      .ok (ct, tag, actualIv)

/-- Embedding of `decrypt(ciphertext, tag, key, iv, additionalData?)`. -/
def decrypt (P : CryptoPrims) (ciphertext tag key iv : Bytes)
    (aad : Option Bytes) : Except String Bytes :=
  if key.length ≠ 32 then .error "Invalid decryption key size"
  else if iv.length ≠ 12 then .error "Invalid IV size"
  else if tag.length ≠ 16 then .error "Invalid tag size"
  else
    match P.aesGcmDecrypt key iv ciphertext tag aad with
    | some pt => .ok pt
    | none => .error "Decryption failed: authentication error"

/-- Embedding of `computeMAC(data, key)`: HMAC-SHA-256 behind the 32-byte
key-size guard. -/
def computeMAC (P : CryptoPrims) (data key : Bytes) : Except String Bytes :=
  if key.length ≠ 32 then .error "Invalid MAC key size"
  else .ok (P.hmacSha256 key data)

/-- Embedding of `verifyMAC(data, key, mac)`: recompute and compare in the
xor-fold style of the source. -/
def verifyMAC (P : CryptoPrims) (data key mac : Bytes) : Except String Bool := do
  let computed ← computeMAC P data key
  if computed.length ≠ mac.length then pure false
  else pure (((computed.zip mac).foldl (fun r p => r ||| (p.1 ^^^ p.2)) 0) == 0)

/-! ## Message protocol (protocol/message.ts, the production variant) -/

/-- The in-memory `EncryptedMessageData`: note that the body GCM tag is not
a field — the source drops it after folding it into the MAC input — and
that `sequence` is a plain JavaScript number (possibly `NaN`). -/
structure EncryptedMessageData where
  messageId : Bytes
  sequence : JsNum
  header : Bytes
  ciphertext : Bytes
  mac : Bytes
  timestamp : Nat
  version : Nat
deriving DecidableEq, Repr

/-- The plaintext `MessageHeader` before serialization. -/
structure MessageHeader where
  sequence : JsNum
  dhPublicKey : Bytes
  messageNumber : Nat
  previousChainLength : Nat
deriving DecidableEq, Repr

/-- Embedding of `serializeHeader`: a 44-byte buffer with the big-endian
sequence at 0, the DH public key at 4, the message number at 36 and the
previous chain length at 40. -/
def serializeHeader (h : MessageHeader) : Bytes :=
  jsSetBytes (jsSetBytes (jsSetBytes (jsSetBytes (zeros 44)
    (be32 (jsToUint32 h.sequence)) 0)
    h.dhPublicKey 4)
    (be32 (h.messageNumber % 4294967296)) 36)
    (be32 (h.previousChainLength % 4294967296)) 40

/-- Embedding of `deserializeHeader` (the 44-byte layout). -/
def deserializeHeader (data : Bytes) : Except String MessageHeader :=
  if data.length < 44 then .error "Invalid header data"
  else .ok
    { sequence := .num (be32dec (data.take 4))
      dhPublicKey := jsSlice data 4 36
      messageNumber := be32dec (jsSlice data 36 40)
      previousChainLength := be32dec (jsSlice data 40 44) }

/-- Embedding of `encryptMessage`.  Explicit arguments stand for the
effects: `bodyIv` for the `crypto.getRandomValues` body IV, `headerIv` for
the IV `encrypt` draws for the header, `freshEphemeral` for a generated
ephemeral pair, `msgId` for `generateMessageId()`, `tNowChain` for the
`Date.now()` in the chain-key info and `tNowStamp` for the frame timestamp. -/
def encryptMessage (P : CryptoPrims) (plaintext : Bytes) (state : RatchetState)
    (bodyIv headerIv : Bytes) (freshEphemeral : EphemeralKeyPair)
    (msgId : Bytes) (tNowChain tNowStamp : Nat) :
    Except String (EncryptedMessageData × RatchetState) := do
  if 1048576 < plaintext.length then .error "Message too large"
  else do
    let (messageKey, state) ← ratchetEncrypt P state freshEphemeral tNowChain
    let (ciphertext, tag, _) ←
      encrypt P plaintext messageKey.encryptionKey (some bodyIv) (zeros 12) none
    let (sequence, counter) := jsPostIncr state.sendCounter
    let state := { state with sendCounter := counter }
    match state.sendingEphemeralKey with
    | none => .error "TypeError: sendingEphemeralKey is undefined"
    | some eph => do
      let header : MessageHeader :=
        { sequence := sequence
          dhPublicKey := eph.publicKey
          messageNumber := messageKey.index
          previousChainLength := state.previousChainLength }
      let headerBytes := serializeHeader header
      let (encryptedHeader, headerTag, _) ←
        encrypt P headerBytes messageKey.encryptionKey none headerIv (some ciphertext)
      let fullHeader := encryptedHeader ++ headerTag
      let macData := be32 (jsToUint32 sequence) ++ fullHeader ++ ciphertext ++ tag
      let mac ← computeMAC P macData messageKey.macKey
      pure
        ({ messageId := msgId
           sequence := sequence
           header := fullHeader
           ciphertext := ciphertext
           mac := mac
           timestamp := tNowStamp
           version := 1 }, state)

/-- Embedding of `decryptMessage`.  `tempIv` is the freshly random IV the
source draws for the header decryption (it never matches the IV the header
was encrypted under), `tNowChain` the `Date.now()` of a DH ratchet step. -/
def decryptMessage (P : CryptoPrims) (ed : EncryptedMessageData)
    (state : RatchetState) (tempIv : Bytes) (tNowChain : Nat) :
    Except String (Bytes × RatchetState) := do
  if jsStrictNeq ed.sequence state.receiveCounter then
    .error "Sequence mismatch"
  else do
    let headerCiphertext := ed.header.take (ed.header.length - 16)
    let headerTag := ed.header.drop (ed.header.length - 16)
    match state.receivingChainKey with
    | none => .error "TypeError: receivingChainKey is undefined"
    | some tempMessageKey => do
      let headerBytes ← decrypt P headerCiphertext headerTag
        (tempMessageKey.key.take 32) tempIv (some ed.ciphertext)
      let header ← deserializeHeader headerBytes
      if jsStrictNeq header.sequence ed.sequence then
        .error "Header sequence mismatch"
      else do
        let (messageKey, state) ←
          ratchetDecrypt P state header.dhPublicKey header.messageNumber tNowChain
        let tag := ed.ciphertext.drop (ed.ciphertext.length - 16)
        let macData := jsSetBytes (jsSetBytes (jsSetBytes (jsSetBytes
          (zeros (4 + ed.header.length + ed.ciphertext.length + 16))
          (be32 (jsToUint32 ed.sequence)) 0)
          ed.header 4)
          ed.ciphertext (4 + ed.header.length))
          tag (4 + ed.header.length + ed.ciphertext.length)
        let macValid ← verifyMAC P macData messageKey.macKey ed.mac
        if !macValid then .error "MAC verification failed"
        else do
          let state := { state with receiveCounter := (jsPostIncr state.receiveCounter).2 }
          let plaintext ← decrypt P ed.ciphertext tag messageKey.encryptionKey tempIv none
          pure (plaintext, state)

/-! ## Handshake (protocol/handshake.ts)

The timestamp is written with `new BigUint64Array(timestampBytes.buffer)`,
which stores in the platform byte order — little-endian on every platform
Node.js and the browsers support — although the adjacent comment and
docs/PROTOCOL.md call the field big-endian. -/

/-- An identity key pair (Ed25519). -/
structure IdentityKeyPair where
  publicKey : Bytes
  privateKey : Bytes
deriving DecidableEq, Repr

/-- The `HandshakeState` record of handshake.ts. -/
structure HandshakeState where
  identityKey : IdentityKeyPair
  ephemeralKey : Option EphemeralKeyPair
  remoteIdentityPublicKey : Option Bytes
  remoteEphemeralPublicKey : Option Bytes
  rootKey : Option Bytes
  handshakeComplete : Bool
deriving DecidableEq, Repr

/-- Embedding of `createHandshakeInit`: builds the 152-byte init message
`eph_pub(32) || id_pub(32) || signature(64) || timestamp(8) || nonce(16)`
with the timestamp bytes produced by `BigUint64Array` (little-endian) and
the signature over `eph_pub || id_pub || timestamp || nonce`.  `tNow` is
`Date.now()`, `nonce` the 16 random bytes of `generateNonce()`. -/
def createHandshakeInit (P : CryptoPrims) (identityKey : IdentityKeyPair)
    (ephemeralKey : EphemeralKeyPair) (tNow : Nat) (nonce : Bytes) :
    Bytes × HandshakeState :=
  let timestampBytes := le64 tNow
  let signatureData :=
    ephemeralKey.publicKey ++ identityKey.publicKey ++ timestampBytes ++ nonce
  let signature := P.ed25519Sign identityKey.privateKey signatureData
  let message :=
    ephemeralKey.publicKey ++ identityKey.publicKey ++ signature ++
      timestampBytes ++ nonce
  (message,
   { identityKey := identityKey
     ephemeralKey := some ephemeralKey
     remoteIdentityPublicKey := none
     remoteEphemeralPublicKey := none
     rootKey := none
     handshakeComplete := false })

/-- Embedding of `processHandshakeInit` (the responder side): parse the
init message, verify the signature, check the clock skew, derive the root
key from the ephemeral X25519 secret and reply with
`server_eph(32) || encrypted_prekey || tag || iv || timestamp(8) || nonce(16)`.
`tNow` is the responder's clock, `prekeyMaterial`, `respIv` and `respNonce`
the random values drawn, `tResp` the reply timestamp. -/
def processHandshakeInit (P : CryptoPrims) (message : Bytes)
    (serverIdentityKey : IdentityKeyPair) (serverEphemeralKey : EphemeralKeyPair)
    (tNow : Nat) (prekeyMaterial respIv respNonce : Bytes) (tResp : Nat) :
    Except String (Bytes × HandshakeState × Bytes) := do
  if message.length < 152 then .error "Invalid handshake init message"
  else do
    let clientEphemeralPublicKey := jsSlice message 0 32
    let clientIdentityPublicKey := jsSlice message 32 64
    let signature := jsSlice message 64 128
    let timestampBytes := jsSlice message 128 136
    let nonce := jsSlice message 136 152
    let signatureData :=
      clientEphemeralPublicKey ++ clientIdentityPublicKey ++ timestampBytes ++ nonce
    if !P.ed25519Verify clientIdentityPublicKey signatureData signature then
      .error "Handshake signature verification failed"
    else do
      let timestamp := le64dec timestampBytes
      if 300000 < max tNow timestamp - min tNow timestamp then
        .error "Handshake timestamp out of acceptable range"
      else do
        let ss1 := P.x25519 serverEphemeralKey.privateKey clientEphemeralPublicKey
        let rootKey := deriveRootKey P ss1
        let (ciphertext, tag, iv) ←
          encrypt P prekeyMaterial rootKey none respIv (some (asciiBytes "handshake-prekey"))
        let response :=
          serverEphemeralKey.publicKey ++ ciphertext ++ tag ++ iv ++
            le64 tResp ++ respNonce
        pure (response,
          { identityKey := serverIdentityKey
            ephemeralKey := some serverEphemeralKey
            remoteIdentityPublicKey := some clientIdentityPublicKey
            remoteEphemeralPublicKey := some clientEphemeralPublicKey
            rootKey := some rootKey
            handshakeComplete := false },
          clientIdentityPublicKey)

/-- Embedding of `processHandshakeResponse` (the initiator side): parse the
116-byte reply, check the clock skew, derive the root key and decrypt the
prekey, then build the confirmation MAC.  Returns `(confirmation, rootKey)`
and the updated state. -/
def processHandshakeResponse (P : CryptoPrims) (message : Bytes)
    (state : HandshakeState) (tNow : Nat) :
    Except String (Bytes × Bytes × HandshakeState) := do
  match state.ephemeralKey with
  | none => .error "Handshake state missing ephemeral key"
  | some ephemeralKey =>
    if message.length < 116 then .error "Invalid handshake response message"
    else do
      let serverEphemeralPublicKey := jsSlice message 0 32
      let encryptedPrekey := jsSlice message 32 64
      let tag := jsSlice message 64 80
      let iv := jsSlice message 80 92
      let timestampBytes := jsSlice message 92 100
      let timestamp := le64dec timestampBytes
      if 300000 < max tNow timestamp - min tNow timestamp then
        .error "Handshake timestamp out of acceptable range"
      else do
        let ss1 := P.x25519 ephemeralKey.privateKey serverEphemeralPublicKey
        let rootKey := deriveRootKey P ss1
        let prekeyMaterial ← decrypt P encryptedPrekey tag rootKey iv
          (some (asciiBytes "handshake-prekey"))
        let confirmationData :=
          ephemeralKey.publicKey ++ serverEphemeralPublicKey ++ prekeyMaterial
        let confirmation ← computeMAC P confirmationData rootKey
        pure (confirmation, rootKey,
          { state with
            rootKey := some rootKey
            remoteEphemeralPublicKey := some serverEphemeralPublicKey
            handshakeComplete := true })

/-! ## Client (client.ts, the hardened variant) -/

/-- Embedding of `SecureMessengerClient.createHandshakeComplete`: a fresh
32-byte random frame (`crypto.getRandomValues` over a 32-byte buffer,
modelled by a byte generator `rnd`).  The root-key argument is unused by
the source. -/
def createHandshakeComplete (rnd : Nat → Nat) : Bytes :=
  (List.range 32).map fun i => rnd i % 256

/-- Big-endian 8-byte encoding, as `DataView.setBigUint64(_, n, false)`
writes. -/
def be64 (n : Nat) : Bytes :=
  [n / 72057594037927936 % 256, n / 281474976710656 % 256,
   n / 1099511627776 % 256, n / 4294967296 % 256,
   n / 16777216 % 256, n / 65536 % 256, n / 256 % 256, n % 256]

/-- Embedding of `SecureMessengerClient.serializeMessage`: the wire frame
`message_id(16) || hdr_len(4) || header || ct_len(4) || ciphertext ||
mac_len(4) || mac || timestamp(8) || version(4)` with big-endian lengths
and (here, via `DataView`) a genuinely big-endian timestamp. -/
def serializeMessage (ed : EncryptedMessageData) : Bytes :=
  (ed.messageId.take 16 ++ zeros (16 - ed.messageId.length)) ++
  be32 (ed.header.length % 4294967296) ++ ed.header ++
  be32 (ed.ciphertext.length % 4294967296) ++ ed.ciphertext ++
  be32 (ed.mac.length % 4294967296) ++ ed.mac ++
  be64 ed.timestamp ++ be32 (ed.version % 4294967296)

/-- The ordered list of frames `performHandshake` writes to the socket: the
handshake init, then — after `processHandshakeResponse` succeeds — the
32-byte `createHandshakeComplete` frame, before any encrypted message.
`response` is the responder's reply frame, `rnd` the randomness of the
confirmation frame. -/
def clientHandshakeWrites (P : CryptoPrims) (identityKey : IdentityKeyPair)
    (ephemeralKey : EphemeralKeyPair) (tNow : Nat) (nonce : Bytes)
    (response : Bytes) (rnd : Nat → Nat) : Except String (List Bytes) := do
  let (initMessage, st) := createHandshakeInit P identityKey ephemeralKey tNow nonce
  let _ ← processHandshakeResponse P response st tNow
  let confirmation := createHandshakeComplete rnd
  pure [initMessage, confirmation]

/-! ## Relay server (server/server.ts) -/

/-- The per-connection `ClientSession` record. -/
structure ClientSession where
  clientId : String
  connectedAt : Nat
  messageCount : Nat
  handshakeCount : Nat
  lastMessageTime : Nat
  lastHandshakeTime : Nat
  handshakeComplete : Bool
  expectedSequence : Nat
deriving DecidableEq, Repr

/-- An observable effect of the relay on one channel. -/
inductive ServerAction where
  | close (code : Nat) (reason : String)
  | send (frame : Bytes)
deriving DecidableEq, Repr

/-- Embedding of `createAck`: 25 bytes
`message_id(16) || received_at(8, BigUint64Array: little-endian) || 1`. -/
def createAck (messageId : Bytes) (tNow : Nat) : Bytes :=
  jsSetBytes (jsSetBytes (jsSetBytes (zeros 25) messageId 0) (le64 tNow) 16) [1] 24

/-- Embedding of `handleEncryptedMessage`, the Active-state frame handler:
parse the message id and the header length, bound-check, compare the first
four header bytes (big-endian) against `expectedSequence` when the header
is at least 4 bytes long, then ack.  A `DataView` construction on a frame
shorter than 20 bytes raises a `RangeError` that the catch turns into a
1011 close. -/
def handleEncryptedMessage (messageData : Bytes) (session : ClientSession)
    (tNow : Nat) : List ServerAction × ClientSession :=
  if messageData.length < 20 then
    ([.close 1011 "Processing error"], session)
  else if messageData.length < 20 + be32dec (jsSlice messageData 16 20) then
    ([.close 1007 "Invalid message format"], session)
  else if 4 ≤ (jsSlice messageData 20 (20 + be32dec (jsSlice messageData 16 20))).length then
    if be32dec ((jsSlice messageData 20
        (20 + be32dec (jsSlice messageData 16 20))).take 4) ≠ session.expectedSequence then
      ([.close 1007 "Sequence error"], session)
    else
      ([.send (createAck (messageData.take 16) tNow)],
       { session with
           expectedSequence := session.expectedSequence + 1
           messageCount := session.messageCount + 1
           lastMessageTime := tNow })
  else
    ([.send (createAck (messageData.take 16) tNow)],
     { session with messageCount := session.messageCount + 1, lastMessageTime := tNow })

/-- The outer sequence number a frame carries, when it carries one: the
frame parses (length at least 20, the declared header fits) and the header
holds at least four bytes.  Returns the message id with it. -/
def parseOuterSequence (messageData : Bytes) : Option (Bytes × Nat) :=
  if messageData.length < 20 then none
  else if messageData.length < 20 + be32dec (jsSlice messageData 16 20) then none
  else if be32dec (jsSlice messageData 16 20) < 4 then none
  else some (messageData.take 16,
    be32dec ((jsSlice messageData 20 (20 + be32dec (jsSlice messageData 16 20))).take 4))

/-! ## Nonce tracker (protocol/nonce-tracker.ts) -/

/-- The key type of the tracker map: the hex string `nonceToKey` builds,
kept as its character list. -/
abbrev NonceKey := List Char

/-- A lowercase hex digit, as `Number.prototype.toString(16)` renders one. -/
def hexDigit (n : Nat) : Char :=
  if n < 10 then Char.ofNat (48 + n) else Char.ofNat (87 + n)

/-- Embedding of `nonceToKey`: each byte as two lowercase hex characters
(`b.toString(16).padStart(2, '0')`), concatenated.  Exact for byte values
below 256, which every `Uint8Array` entry is. -/
def nonceToKey (nonce : Bytes) : NonceKey :=
  nonce.flatMap fun b => [hexDigit (b / 16 % 16), hexDigit (b % 16)]

/-- The tracker: the `used` map as an insertion-ordered association list,
with the TTL and the size cap. -/
structure NonceTracker where
  used : List (NonceKey × Nat)
  ttlMs : Nat
  maxSize : Nat
deriving DecidableEq, Repr

/-- Semantics of `used.get(key)`. -/
def nmapGet : List (NonceKey × Nat) → NonceKey → Option Nat
  | [], _ => none
  | p :: rest, k => if p.1 = k then some p.2 else nmapGet rest k

/-- Semantics of `used.set(key, v)`: update in place, append when new. -/
def nmapSet : List (NonceKey × Nat) → NonceKey → Nat → List (NonceKey × Nat)
  | [], k, v => [(k, v)]
  | p :: rest, k, v => if p.1 = k then (k, v) :: rest else p :: nmapSet rest k v

/-- Semantics of `used.delete(key)`. -/
def nmapDelete : List (NonceKey × Nat) → NonceKey → List (NonceKey × Nat)
  | [], _ => []
  | p :: rest, k => if p.1 = k then rest else p :: nmapDelete rest k

/-- JavaScript `config.x || default`: `0` and a missing field both fall back
to the default (falsy coercion). -/
def jsOrDefault (v : Option Nat) (d : Nat) : Nat :=
  match v with
  | some n => if n = 0 then d else n
  | none => d

/-- Embedding of the `NonceTracker` constructor (the sweep timer is outside
the state model). -/
def NonceTracker.create (ttlMs maxSize : Option Nat) : NonceTracker :=
  { used := [], ttlMs := jsOrDefault ttlMs 300000, maxSize := jsOrDefault maxSize 100000 }

/-- Embedding of `evictOldest`: scan for the entry whose timestamp is
strictly below every earlier candidate, seeded with `Date.now()`; delete it
when one was found.  When every timestamp is at least `now`, nothing is
evicted. -/
def NonceTracker.evictOldest (used : List (NonceKey × Nat)) (now : Nat) :
    List (NonceKey × Nat) :=
  let best := used.foldl
    (fun (acc : Option NonceKey × Nat) p =>
      if p.2 < acc.2 then (some p.1, p.2) else acc)
    (none, now)
  match best.1 with
  | some k => nmapDelete used k
  | none => used

/-- Embedding of `NonceTracker.check(nonce)` at time `now`: `false` means
replay detected, `true` means the nonce was recorded as fresh. -/
def NonceTracker.check (t : NonceTracker) (nonce : Bytes) (now : Nat) :
    Bool × NonceTracker :=
  let key := nonceToKey nonce
  match nmapGet t.used key with
  | some existing =>
    if now - existing < t.ttlMs then (false, t)
    else
      let used := if t.maxSize ≤ t.used.length then
        NonceTracker.evictOldest t.used now else t.used
      (true, { t with used := nmapSet used key now })
  | none =>
    let used := if t.maxSize ≤ t.used.length then
      NonceTracker.evictOldest t.used now else t.used
    (true, { t with used := nmapSet used key now })

/-- Fold `check` over a list of nonces, all at the same time `now`,
discarding the verdicts (the state a burst of handshakes leaves behind). -/
def NonceTracker.checkAll (t : NonceTracker) (nonces : List Bytes) (now : Nat) :
    NonceTracker :=
  nonces.foldl (fun t n => (NonceTracker.check t n now).2) t

/-! ## Lemmas about the skipped-key map -/

theorem mapGet_set_self (m : SkippedMap) (k : Nat) (v : MessageKey) :
    mapGet (mapSet m k v) k = some v := by
  induction m with
  | nil => simp [mapSet, mapGet]
  | cons p rest ih =>
    by_cases hp : p.1 = k
    · simp [mapSet, mapGet, hp]
    · simp [mapSet, mapGet, hp, ih]

theorem mapGet_set_ne (m : SkippedMap) (k : Nat) (v : MessageKey) (k' : Nat)
    (h : k' ≠ k) : mapGet (mapSet m k v) k' = mapGet m k' := by
  induction m with
  | nil =>
    simp only [mapSet, mapGet]
    rw [if_neg (fun hh => h hh.symm)]
  | cons p rest ih =>
    by_cases hp : p.1 = k
    · simp only [mapSet, hp, if_true, mapGet]
      rw [if_neg (fun hh => h hh.symm), if_neg (fun hh => h hh.symm)]
    · simp only [mapSet, hp, if_false, mapGet]
      by_cases hp' : p.1 = k'
      · rw [if_pos hp', if_pos hp']
      · rw [if_neg hp', if_neg hp']
        exact ih

theorem length_mapSet_le (m : SkippedMap) (k : Nat) (v : MessageKey) :
    (mapSet m k v).length ≤ m.length + 1 := by
  induction m with
  | nil => simp [mapSet]
  | cons p rest ih =>
    by_cases hp : p.1 = k
    · simp [mapSet, hp]
    · simp only [mapSet, hp, if_false, List.length_cons]
      omega

theorem length_le_mapSet (m : SkippedMap) (k : Nat) (v : MessageKey) :
    m.length ≤ (mapSet m k v).length := by
  induction m with
  | nil => simp [mapSet]
  | cons p rest ih =>
    by_cases hp : p.1 = k
    · simp [mapSet, hp]
    · simp only [mapSet, hp, if_false, List.length_cons]
      omega

theorem length_mapSet_of_get_none (m : SkippedMap) (k : Nat) (v : MessageKey)
    (h : mapGet m k = none) : (mapSet m k v).length = m.length + 1 := by
  induction m with
  | nil => simp [mapSet]
  | cons p rest ih =>
    by_cases hp : p.1 = k
    · simp [mapGet, hp] at h
    · simp only [mapGet, hp, if_false] at h
      simp only [mapSet, hp, if_false, List.length_cons, ih h]

theorem keys_mapSet (m : SkippedMap) (k : Nat) (v : MessageKey) :
    (mapSet m k v).map Prod.fst = m.map Prod.fst ∨
      (mapSet m k v).map Prod.fst = m.map Prod.fst ++ [k] := by
  induction m with
  | nil => right; simp [mapSet]
  | cons p rest ih =>
    by_cases hp : p.1 = k
    · left; simp [mapSet, hp]
    · rcases ih with ih | ih
      · left; simp [mapSet, hp, ih]
      · right; simp [mapSet, hp, ih]

theorem mapGet_eq_none_of_not_mem (m : SkippedMap) (k : Nat)
    (h : k ∉ m.map Prod.fst) : mapGet m k = none := by
  induction m with
  | nil => rfl
  | cons p rest ih =>
    simp only [List.map_cons, List.mem_cons] at h
    push_neg at h
    simp only [mapGet]
    rw [if_neg (fun hh => h.1 hh.symm)]
    exact ih h.2

theorem not_mem_keys_of_mapGet_eq_none (m : SkippedMap) (k : Nat)
    (h : mapGet m k = none) : k ∉ m.map Prod.fst := by
  induction m with
  | nil => simp
  | cons p rest ih =>
    by_cases hp : p.1 = k
    · simp [mapGet, hp] at h
    · simp only [mapGet, hp, if_false] at h
      simp only [List.map_cons, List.mem_cons]
      push_neg
      exact ⟨fun hh => hp hh.symm, ih h⟩

theorem nodup_keys_mapSet (m : SkippedMap) (k : Nat) (v : MessageKey)
    (h : (m.map Prod.fst).Nodup) : ((mapSet m k v).map Prod.fst).Nodup := by
  induction m with
  | nil => simp [mapSet]
  | cons p rest ih =>
    simp only [List.map_cons, List.nodup_cons] at h
    by_cases hp : p.1 = k
    · simp only [mapSet, hp, if_true, List.map_cons, List.nodup_cons]
      exact ⟨hp ▸ h.1, h.2⟩
    · simp only [mapSet, hp, if_false, List.map_cons, List.nodup_cons]
      refine ⟨?_, ih h.2⟩
      intro hmem
      rcases (keys_mapSet rest k v) with hk | hk
      · exact h.1 (hk ▸ hmem)
      · rw [hk, List.mem_append] at hmem
        rcases hmem with hmem | hmem
        · exact h.1 hmem
        · simp at hmem
          exact hp hmem

theorem length_mapDelete_le (m : SkippedMap) (k : Nat) :
    (mapDelete m k).length ≤ m.length := by
  induction m with
  | nil => simp [mapDelete]
  | cons p rest ih =>
    by_cases hp : p.1 = k
    · simp [mapDelete, hp]
    · simp only [mapDelete, hp, if_false, List.length_cons]
      omega

theorem length_le_mapDelete (m : SkippedMap) (k : Nat) :
    m.length ≤ (mapDelete m k).length + 1 := by
  induction m with
  | nil => simp [mapDelete]
  | cons p rest ih =>
    by_cases hp : p.1 = k
    · simp [mapDelete, hp]
    · simp only [mapDelete, hp, if_false, List.length_cons]
      omega

theorem nodup_keys_mapDelete (m : SkippedMap) (k : Nat)
    (h : (m.map Prod.fst).Nodup) : ((mapDelete m k).map Prod.fst).Nodup := by
  induction m with
  | nil => simp [mapDelete]
  | cons p rest ih =>
    simp only [List.map_cons, List.nodup_cons] at h
    by_cases hp : p.1 = k
    · simpa [mapDelete, hp] using h.2
    · simp only [mapDelete, hp, if_false, List.map_cons, List.nodup_cons]
      refine ⟨?_, ih h.2⟩
      intro hmem
      have : (mapDelete rest k).map Prod.fst ⊆ rest.map Prod.fst := by
        intro x hx
        clear ih h hmem
        induction rest with
        | nil => simp [mapDelete] at hx
        | cons q tail ihq =>
          by_cases hq : q.1 = k
          · simp only [mapDelete, hq, if_true] at hx
            simp [hx]
          · simp only [mapDelete, hq, if_false, List.map_cons, List.mem_cons] at hx ⊢
            rcases hx with hx | hx
            · exact Or.inl hx
            · exact Or.inr (ihq hx)
      exact h.1 (this hmem)

/-! ## Lemmas about the skip loop of `ratchetDecrypt` -/

/-- The chain key `n` derivation steps after `key`. -/
def chainIterate (P : CryptoPrims) (key : Bytes) : Nat → Bytes
  | 0 => key
  | n + 1 => chainIterate P (deriveMessageKey P key).2 n

/-- The `MessageKey` the skip loop stores at index `j` when it starts from
chain key `key` at index `start`. -/
def skippedKeyFromChain (P : CryptoPrims) (key : Bytes) (start j : Nat) :
    MessageKey :=
  let mk := (deriveMessageKey P (chainIterate P key (j - start))).1
  ⟨mk, deriveMacKey P mk, zeros 12, j⟩

theorem skipLoop_length_le (P : CryptoPrims) (m : Nat) :
    ∀ (fuel i : Nat) (key : Bytes) (cache : SkippedMap), i + fuel = m →
      ((skipLoop P m fuel key i cache).2).length ≤ cache.length + (fuel - 1) := by
  intro fuel
  induction fuel with
  | zero => intro i key cache _; simp [skipLoop]
  | succ fuel ih =>
    intro i key cache hm
    simp only [skipLoop]
    by_cases hi : i < m - 1
    · have h1 := ih (i + 1)
        (deriveMessageKey P key).2
        (mapSet cache i ⟨(deriveMessageKey P key).1,
          deriveMacKey P (deriveMessageKey P key).1, zeros 12, i⟩) (by omega)
      have h2 := length_mapSet_le cache i ⟨(deriveMessageKey P key).1,
        deriveMacKey P (deriveMessageKey P key).1, zeros 12, i⟩
      simp only [hi, if_true]
      omega
    · have h1 := ih (i + 1) (deriveMessageKey P key).2 cache (by omega)
      simp only [hi, if_false]
      omega

theorem skipLoop_length_ge (P : CryptoPrims) (m : Nat) :
    ∀ (fuel i : Nat) (key : Bytes) (cache : SkippedMap),
      cache.length ≤ ((skipLoop P m fuel key i cache).2).length := by
  intro fuel
  induction fuel with
  | zero => intro i key cache; simp [skipLoop]
  | succ fuel ih =>
    intro i key cache
    simp only [skipLoop]
    by_cases hi : i < m - 1
    · have h1 := ih (i + 1)
        (deriveMessageKey P key).2
        (mapSet cache i ⟨(deriveMessageKey P key).1,
          deriveMacKey P (deriveMessageKey P key).1, zeros 12, i⟩)
      have h2 := length_le_mapSet cache i ⟨(deriveMessageKey P key).1,
        deriveMacKey P (deriveMessageKey P key).1, zeros 12, i⟩
      simp only [hi, if_true]
      omega
    · have h1 := ih (i + 1) (deriveMessageKey P key).2 cache
      simp only [hi, if_false]
      omega

theorem skipLoop_nodup (P : CryptoPrims) (m : Nat) :
    ∀ (fuel i : Nat) (key : Bytes) (cache : SkippedMap),
      (cache.map Prod.fst).Nodup →
      (((skipLoop P m fuel key i cache).2).map Prod.fst).Nodup := by
  intro fuel
  induction fuel with
  | zero => intro i key cache h; simpa [skipLoop] using h
  | succ fuel ih =>
    intro i key cache h
    simp only [skipLoop]
    by_cases hi : i < m - 1
    · simp only [hi, if_true]
      exact ih (i + 1) _ _ (nodup_keys_mapSet _ _ _ h)
    · simp only [hi, if_false]
      exact ih (i + 1) _ _ h

theorem skipLoop_get_lt (P : CryptoPrims) (m : Nat) :
    ∀ (fuel i : Nat) (key : Bytes) (cache : SkippedMap) (j : Nat), j < i →
      mapGet ((skipLoop P m fuel key i cache).2) j = mapGet cache j := by
  intro fuel
  induction fuel with
  | zero => intro i key cache j _; simp [skipLoop]
  | succ fuel ih =>
    intro i key cache j hj
    simp only [skipLoop]
    by_cases hi : i < m - 1
    · simp only [hi, if_true]
      rw [ih (i + 1) _ _ j (by omega)]
      exact mapGet_set_ne _ _ _ _ (by omega)
    · simp only [hi, if_false]
      exact ih (i + 1) _ _ j (by omega)

theorem skipLoop_get_stored (P : CryptoPrims) (m : Nat) :
    ∀ (fuel i : Nat) (key : Bytes) (cache : SkippedMap) (j : Nat),
      i + fuel = m → i ≤ j → j + 1 < m →
      mapGet ((skipLoop P m fuel key i cache).2) j =
        some (skippedKeyFromChain P key i j) := by
  intro fuel
  induction fuel with
  | zero => intro i key cache j hm hij hj; omega
  | succ fuel ih =>
    intro i key cache j hm hij hj
    simp only [skipLoop]
    by_cases hji : j = i
    · subst hji
      have hi : j < m - 1 := by omega
      simp only [hi, if_true]
      rw [skipLoop_get_lt P m fuel (j + 1) _ _ j (by omega)]
      rw [mapGet_set_self]
      simp [skippedKeyFromChain, chainIterate]
    · have hij1 : i + 1 ≤ j := by omega
      have hkey : skippedKeyFromChain P key i j =
          skippedKeyFromChain P (deriveMessageKey P key).2 (i + 1) j := by
        have hn : j - i = (j - (i + 1)) + 1 := by omega
        simp only [skippedKeyFromChain, hn, chainIterate]
      by_cases hi : i < m - 1
      · simp only [hi, if_true]
        rw [ih (i + 1) _ _ j (by omega) hij1 hj, hkey]
      · simp only [hi, if_false]
        rw [ih (i + 1) _ _ j (by omega) hij1 hj, hkey]

theorem skipLoop_length_eq (P : CryptoPrims) (m : Nat) :
    ∀ (fuel i : Nat) (key : Bytes) (cache : SkippedMap), i + fuel = m →
      (∀ j, i ≤ j → mapGet cache j = none) →
      ((skipLoop P m fuel key i cache).2).length = cache.length + (fuel - 1) := by
  intro fuel
  induction fuel with
  | zero => intro i key cache _ _; simp [skipLoop]
  | succ fuel ih =>
    intro i key cache hm hfresh
    simp only [skipLoop]
    by_cases hi : i < m - 1
    · have hnone := hfresh i (le_refl i)
      have hlen := length_mapSet_of_get_none cache i ⟨(deriveMessageKey P key).1,
        deriveMacKey P (deriveMessageKey P key).1, zeros 12, i⟩ hnone
      have hfresh' : ∀ j, i + 1 ≤ j →
          mapGet (mapSet cache i ⟨(deriveMessageKey P key).1,
            deriveMacKey P (deriveMessageKey P key).1, zeros 12, i⟩) j = none := by
        intro j hj
        rw [mapGet_set_ne _ _ _ _ (by omega)]
        exact hfresh j (by omega)
      have := ih (i + 1) (deriveMessageKey P key).2 _ (by omega) hfresh'
      simp only [hi, if_true, this, hlen]
      omega
    · have hfresh' : ∀ j, i + 1 ≤ j → mapGet cache j = none := fun j hj =>
        hfresh j (by omega)
      have := ih (i + 1) (deriveMessageKey P key).2 cache (by omega) hfresh'
      simp only [hi, if_false, this]
      omega

theorem skipLoop_get_ge (P : CryptoPrims) (m : Nat) :
    ∀ (fuel i : Nat) (key : Bytes) (cache : SkippedMap) (j : Nat),
      m - 1 ≤ j →
      mapGet ((skipLoop P m fuel key i cache).2) j = mapGet cache j := by
  intro fuel
  induction fuel with
  | zero => intro i key cache j _; simp [skipLoop]
  | succ fuel ih =>
    intro i key cache j hj
    simp only [skipLoop]
    by_cases hi : i < m - 1
    · simp only [hi, if_true]
      rw [ih (i + 1) _ _ j hj]
      exact mapGet_set_ne _ _ _ _ (by omega)
    · simp only [hi, if_false]
      exact ih (i + 1) _ _ j hj

/-! ## Path analysis of `ratchetDecrypt` -/

set_option maxHeartbeats 1000000 in
/-- Every successful `ratchetDecrypt` affects the skipped-key cache in one of
exactly three ways: it deletes the consumed old-chain entry, leaves the cache
unchanged, or runs the skip loop over at most 1000 indices.  In particular
no call ever evicts unrelated entries. -/
theorem ratchetDecrypt_skipped_cases (P : CryptoPrims) (s : RatchetState)
    (dh : Bytes) (m tNow : Nat) (mk : MessageKey) (s' : RatchetState)
    (h : ratchetDecrypt P s dh m tNow = .ok (mk, s')) :
    s'.skippedMessageKeys = mapDelete s.skippedMessageKeys m
    ∨ s'.skippedMessageKeys = s.skippedMessageKeys
    ∨ ∃ key i, i < m ∧ m - i ≤ 1000 ∧
        s'.skippedMessageKeys = (skipLoop P m (m - i) key i s.skippedMessageKeys).2 := by
  unfold ratchetDecrypt at h
  simp only [bind, Except.bind, pure, Except.pure] at h
  repeat' split at h
  all_goals try exact Except.noConfusion h
  all_goals simp only [Except.ok.injEq, Prod.mk.injEq] at h
  all_goals obtain ⟨h1, h2⟩ := h
  all_goals subst h2
  all_goals dsimp only
  all_goals
    first
      | (left; rfl)
      | (right; left; rfl)
      | (right; right; exact ⟨_, _, by omega, by omega, rfl⟩)

/-- The receiving chain key a DH ratchet step installs: derived from the new
root key (HKDF over old root || X25519 shared secret) with the wall-clock
info string of ratchet.ts. -/
def newReceivingChainKey (P : CryptoPrims) (s : RatchetState)
    (dh : Bytes) (eph : EphemeralKeyPair) (tNow : Nat) : Bytes :=
  deriveChainKey P (deriveRootKey P (s.rootKey ++ P.x25519 eph.privateKey dh))
    (some (asciiBytes ("receiving-" ++ toString tNow)))

set_option maxHeartbeats 1000000 in
/-- A successful `ratchetDecrypt` that performs a DH step (new remote DH
public key) and lands in the forward-skip path rewrites the cache with the
skip loop of the fresh receiving chain, which starts at index 0. -/
theorem ratchetDecrypt_dh_skip (P : CryptoPrims) (s : RatchetState)
    (dh : Bytes) (m tNow : Nat) (mk : MessageKey) (s' : RatchetState)
    (oldPub : Bytes) (eph : EphemeralKeyPair)
    (h : ratchetDecrypt P s dh m tNow = .ok (mk, s'))
    (h1 : s.receivingEphemeralPublicKey = some oldPub)
    (h2 : constantTimeEqual oldPub dh = false)
    (h3 : s.sendingEphemeralKey = some eph)
    (h4 : (Option.map ChainKey.index s.receivingChainKey).getD 0 ≤ m)
    (h5 : 0 < m) :
    s'.skippedMessageKeys =
      (skipLoop P m m (newReceivingChainKey P s dh eph tNow) 0 s.skippedMessageKeys).2 := by
  unfold ratchetDecrypt at h
  rw [h1, h3] at h
  simp only [h2, Bool.not_false, bind, Except.bind, pure, Except.pure] at h
  have h6 : ¬ m < (Option.map ChainKey.index s.receivingChainKey).getD 0 := by omega
  rw [if_neg h6, if_pos trivial, if_pos h5] at h
  split at h
  · exact Except.noConfusion h
  · simp only [Except.ok.injEq, Prod.mk.injEq] at h
    rw [← h.2]
    simp only [newReceivingChainKey, Nat.sub_zero]

set_option maxHeartbeats 1000000 in
/-- A successful forward-skip within the current chain (the remote DH key
matches): the chain advances to `m + 1` and the cache becomes the skip-loop
result.  Matches the source's receive step with no DH step. -/
theorem ratchetDecrypt_same_chain_skip (P : CryptoPrims) (s : RatchetState)
    (dh : Bytes) (m tNow : Nat) (oldPub ck : Bytes) (idx : Nat)
    (h1 : s.receivingEphemeralPublicKey = some oldPub)
    (h2 : constantTimeEqual oldPub dh = true)
    (h3 : ¬ m < s.previousChainLength)
    (h4 : s.receivingChainKey = some ⟨ck, idx⟩)
    (h5 : idx < m)
    (h6 : ¬ 1000 < m - idx) :
    ratchetDecrypt P s dh m tNow = .ok
      (⟨(deriveMessageKey P
            (skipLoop P m (m - idx) ck idx s.skippedMessageKeys).1).1,
        deriveMacKey P (deriveMessageKey P
            (skipLoop P m (m - idx) ck idx s.skippedMessageKeys).1).1,
        zeros 12, m⟩,
       { s with
         receivingChainKey := some ⟨(deriveMessageKey P
             (skipLoop P m (m - idx) ck idx s.skippedMessageKeys).1).2,
           m + 1⟩,
         skippedMessageKeys :=
           (skipLoop P m (m - idx) ck idx s.skippedMessageKeys).2 }) := by
  unfold ratchetDecrypt
  rw [h1]
  simp only [h2, Bool.not_true, bind, Except.bind, pure, Except.pure,
    Bool.false_eq_true, if_false, h4]
  rw [if_neg h3]
  simp only [if_pos h5, if_neg h6]
  rw [h1]

/-! ## Lemmas about the nonce-tracker map -/

theorem nmapGet_set_self (m : List (NonceKey × Nat)) (k : NonceKey) (v : Nat) :
    nmapGet (nmapSet m k v) k = some v := by
  induction m with
  | nil => simp [nmapSet, nmapGet]
  | cons p rest ih =>
    by_cases hp : p.1 = k
    · simp [nmapSet, nmapGet, hp]
    · simp [nmapSet, nmapGet, hp, ih]

theorem length_nmapSet_le (m : List (NonceKey × Nat)) (k : NonceKey) (v : Nat) :
    (nmapSet m k v).length ≤ m.length + 1 := by
  induction m with
  | nil => simp [nmapSet]
  | cons p rest ih =>
    by_cases hp : p.1 = k
    · simp [nmapSet, hp]
    · simp only [nmapSet, hp, if_false, List.length_cons]
      omega

theorem nmapSet_of_get_none (m : List (NonceKey × Nat)) (k : NonceKey) (v : Nat)
    (h : nmapGet m k = none) : nmapSet m k v = m ++ [(k, v)] := by
  induction m with
  | nil => simp [nmapSet]
  | cons p rest ih =>
    by_cases hp : p.1 = k
    · simp [nmapGet, hp] at h
    · simp only [nmapGet, hp, if_false] at h
      simp [nmapSet, hp, ih h]

theorem nmapGet_append_single_ne (m : List (NonceKey × Nat)) (k k0 : NonceKey)
    (v : Nat) (h : nmapGet m k = none) (hne : k0 ≠ k) :
    nmapGet (m ++ [(k0, v)]) k = none := by
  induction m with
  | nil => simp [nmapGet, hne]
  | cons p rest ih =>
    by_cases hp : p.1 = k
    · simp [nmapGet, hp] at h
    · simp only [nmapGet, hp, if_false] at h
      simp only [List.cons_append, nmapGet, hp, if_false]
      exact ih h

theorem nmapGet_none_of_delete (m : List (NonceKey × Nat)) (k k0 : NonceKey)
    (h : nmapGet m k = none) : nmapGet (nmapDelete m k0) k = none := by
  induction m with
  | nil => simp [nmapDelete, nmapGet]
  | cons p rest ih =>
    by_cases hp : p.1 = k
    · simp [nmapGet, hp] at h
    · simp only [nmapGet, hp, if_false] at h
      by_cases hp0 : p.1 = k0
      · simpa [nmapDelete, hp0] using h
      · simp only [nmapDelete, hp0, if_false, nmapGet, hp, if_false]
        exact ih h

theorem length_nmapDelete_of_mem (m : List (NonceKey × Nat)) (k : NonceKey)
    (h : k ∈ m.map Prod.fst) : (nmapDelete m k).length + 1 = m.length := by
  induction m with
  | nil => simp at h
  | cons p rest ih =>
    by_cases hp : p.1 = k
    · simp [nmapDelete, hp]
    · simp only [List.map_cons, List.mem_cons] at h
      rcases h with h | h
      · exact absurd h.symm hp
      · simp only [nmapDelete, hp, if_false, List.length_cons]
        rw [← ih h]

/-- The accumulator scan of `evictOldest`. -/
def foldBest (l : List (NonceKey × Nat)) (acc : Option NonceKey × Nat) :
    Option NonceKey × Nat :=
  l.foldl (fun acc p => if p.2 < acc.2 then (some p.1, p.2) else acc) acc

theorem foldBest_mem (l : List (NonceKey × Nat)) :
    ∀ (acc : Option NonceKey × Nat) (k : NonceKey),
      (foldBest l acc).1 = some k → acc.1 = some k ∨ k ∈ l.map Prod.fst := by
  induction l with
  | nil => intro acc k h; exact Or.inl h
  | cons p rest ih =>
    intro acc k h
    simp only [foldBest, List.foldl_cons] at h
    by_cases hp : p.2 < acc.2
    · rw [if_pos hp] at h
      rcases ih _ k h with h1 | h1
      · simp only [Option.some.injEq] at h1
        right; simp [← h1]
      · right; simp [h1]
    · rw [if_neg hp] at h
      rcases ih _ k h with h1 | h1
      · exact Or.inl h1
      · right; simp [h1]

theorem foldBest_isSome (l : List (NonceKey × Nat)) :
    ∀ (acc : Option NonceKey × Nat), acc.1.isSome →
      (foldBest l acc).1.isSome := by
  induction l with
  | nil => intro acc h; exact h
  | cons p rest ih =>
    intro acc h
    simp only [foldBest, List.foldl_cons]
    by_cases hp : p.2 < acc.2
    · rw [if_pos hp]; exact ih _ rfl
    · rw [if_neg hp]; exact ih _ h

theorem foldBest_finds (l : List (NonceKey × Nat)) :
    ∀ (acc : Option NonceKey × Nat),
      (∃ p ∈ l, p.2 < acc.2) → (foldBest l acc).1.isSome := by
  induction l with
  | nil => intro acc h; simp at h
  | cons p rest ih =>
    intro acc h
    simp only [foldBest, List.foldl_cons]
    by_cases hp : p.2 < acc.2
    · rw [if_pos hp]
      exact foldBest_isSome rest _ rfl
    · rw [if_neg hp]
      apply ih
      rcases h with ⟨q, hq, hqlt⟩
      rcases List.mem_cons.mp hq with hq | hq
      · exact absurd (hq ▸ hqlt) hp
      · exact ⟨q, hq, hqlt⟩

theorem length_nmapDelete_le (m : List (NonceKey × Nat)) (k : NonceKey) :
    (nmapDelete m k).length ≤ m.length := by
  induction m with
  | nil => simp [nmapDelete]
  | cons p rest ih =>
    by_cases hp : p.1 = k
    · simp [nmapDelete, hp]
    · simp only [nmapDelete, hp, if_false, List.length_cons]
      omega

theorem evictOldest_eq_match (used : List (NonceKey × Nat)) (now : Nat) :
    NonceTracker.evictOldest used now =
      match (foldBest used (none, now)).1 with
      | some k => nmapDelete used k
      | none => used := rfl

theorem evictOldest_length_le (used : List (NonceKey × Nat)) (now : Nat) :
    (NonceTracker.evictOldest used now).length ≤ used.length := by
  rw [evictOldest_eq_match]
  cases hb : (foldBest used (none, now)).1 with
  | none => exact le_refl _
  | some k => exact length_nmapDelete_le used k

theorem evictOldest_shrinks (used : List (NonceKey × Nat)) (now : Nat)
    (h : ∃ p ∈ used, p.2 < now) :
    (NonceTracker.evictOldest used now).length + 1 = used.length := by
  have hs := foldBest_finds used (none, now) (by simpa using h)
  rw [evictOldest_eq_match]
  cases hb : (foldBest used (none, now)).1 with
  | none => rw [hb] at hs; simp at hs
  | some k =>
    rcases foldBest_mem used (none, now) k hb with h1 | h1
    · simp at h1
    · exact length_nmapDelete_of_mem used k h1

theorem evictOldest_get_none (used : List (NonceKey × Nat)) (now : Nat)
    (k : NonceKey) (h : nmapGet used k = none) :
    nmapGet (NonceTracker.evictOldest used now) k = none := by
  rw [evictOldest_eq_match]
  cases hb : (foldBest used (none, now)).1 with
  | none => exact h
  | some k0 => exact nmapGet_none_of_delete used k k0 h

theorem evictOldest_zero (used : List (NonceKey × Nat)) :
    NonceTracker.evictOldest used 0 = used := by
  unfold NonceTracker.evictOldest
  have : used.foldl (fun acc p => if p.2 < acc.2 then (some p.1, p.2) else acc)
      ((none : Option NonceKey), 0) = (none, 0) := by
    induction used with
    | nil => rfl
    | cons p rest ih => simp [ih]
  rw [this]

/-- First seen at time 0, a fresh nonce is simply appended: timestamps are
never strictly below `Date.now() = 0`, so `evictOldest` finds nothing. -/
theorem check_fresh_zero (t : NonceTracker) (nonce : Bytes)
    (h : nmapGet t.used (nonceToKey nonce) = none) :
    NonceTracker.check t nonce 0 =
      (true, { t with used := t.used ++ [(nonceToKey nonce, 0)] }) := by
  unfold NonceTracker.check
  simp only [h]
  by_cases hc : t.maxSize ≤ t.used.length
  · simp only [hc, if_true, evictOldest_zero, nmapSet_of_get_none _ _ _ h]
  · simp only [hc, if_false, nmapSet_of_get_none _ _ _ h]

/-- Folding `check` at time 0 over nonces whose keys are pairwise distinct
and absent grows the map by exactly one entry per nonce — the size cap is
never enforced because `evictOldest` cannot evict same-instant entries. -/
theorem checkAll_fresh_length (nonces : List Bytes) :
    ∀ (t : NonceTracker),
      (∀ n ∈ nonces, nmapGet t.used (nonceToKey n) = none) →
      (nonces.map nonceToKey).Nodup →
      (NonceTracker.checkAll t nonces 0).used.length =
        t.used.length + nonces.length := by
  induction nonces with
  | nil => intro t _ _; simp [NonceTracker.checkAll]
  | cons n rest ih =>
    intro t hf hn
    have hstep := check_fresh_zero t n (hf n (by simp))
    have hall : NonceTracker.checkAll t (n :: rest) 0 =
        NonceTracker.checkAll { t with used := t.used ++ [(nonceToKey n, 0)] } rest 0 := by
      simp [NonceTracker.checkAll, hstep]
    rw [hall]
    simp only [List.map_cons, List.nodup_cons] at hn
    have hf' : ∀ n' ∈ rest,
        nmapGet (t.used ++ [(nonceToKey n, 0)]) (nonceToKey n') = none := by
      intro n' hn'
      apply nmapGet_append_single_ne _ _ _ _ (hf n' (List.mem_cons_of_mem _ hn'))
      intro hkey
      exact hn.1 (hkey ▸ List.mem_map_of_mem nonceToKey hn')
    rw [ih { t with used := t.used ++ [(nonceToKey n, 0)] } hf' hn.2]
    simp
    omega

/-! ## Injectivity of the nonce hex keys -/

theorem hexDigit_inj (a b : Nat) (ha : a < 16) (hb : b < 16)
    (h : hexDigit a = hexDigit b) : a = b := by
  have hfin : ∀ x y : Fin 16, hexDigit x.val = hexDigit y.val → x = y := by decide
  have := hfin ⟨a, ha⟩ ⟨b, hb⟩ h
  exact congrArg Fin.val this

theorem nonceToKey_cons (b : Nat) (rest : Bytes) :
    nonceToKey (b :: rest) =
      hexDigit (b / 16 % 16) :: hexDigit (b % 16) :: nonceToKey rest := by
  simp [nonceToKey]

theorem nonceToKey_inj_of_length (a : Bytes) :
    ∀ (b : Bytes), a.length = b.length →
      (∀ x ∈ a, x < 256) → (∀ x ∈ b, x < 256) →
      nonceToKey a = nonceToKey b → a = b := by
  induction a with
  | nil =>
    intro b hlen _ _ _
    exact (List.length_eq_zero.mp hlen.symm).symm
  | cons x rest ih =>
    intro b hlen ha hb h
    cases b with
    | nil => simp at hlen
    | cons y brest =>
      rw [nonceToKey_cons, nonceToKey_cons] at h
      simp only [List.cons.injEq] at h
      have hx : x < 256 := ha x (by simp)
      have hy : y < 256 := hb y (by simp)
      have e1 : x / 16 % 16 = y / 16 % 16 :=
        hexDigit_inj _ _ (Nat.mod_lt _ (by omega)) (Nat.mod_lt _ (by omega)) h.1
      have e2 : x % 16 = y % 16 :=
        hexDigit_inj _ _ (Nat.mod_lt _ (by omega)) (Nat.mod_lt _ (by omega)) h.2.1
      have hxy : x = y := by omega
      have := ih brest (by simpa using hlen)
        (fun z hz => ha z (List.mem_cons_of_mem _ hz))
        (fun z hz => hb z (List.mem_cons_of_mem _ hz)) h.2.2
      rw [hxy, this]

/-- The `i`-th flood nonce: 13 zero bytes followed by the 3-byte big-endian
encoding of `i` — 16 bytes, like a real handshake nonce. -/
def floodNonce (i : Nat) : Bytes :=
  List.replicate 13 0 ++ [i / 65536 % 256, i / 256 % 256, i % 256]

theorem floodNonce_inj (i j : Nat) (hi : i < 16777216) (hj : j < 16777216)
    (h : nonceToKey (floodNonce i) = nonceToKey (floodNonce j)) : i = j := by
  have hb : ∀ n, ∀ x ∈ floodNonce n, x < 256 := by
    intro n x hx
    simp only [floodNonce, List.mem_append, List.mem_replicate, List.mem_cons,
      List.mem_singleton] at hx
    rcases hx with hx | hx
    · omega
    · rcases hx with hx | hx | hx | hx
      all_goals first | omega | simp at hx
  have heq := nonceToKey_inj_of_length (floodNonce i) (floodNonce j)
    (by simp [floodNonce]) (hb i) (hb j) h
  simp only [floodNonce, List.append_cancel_left_eq, List.cons.injEq] at heq
  omega

/-- The 100001 flood nonces (all distinct 16-byte values). -/
def floodNonces : List Bytes := (List.range 100001).map floodNonce

theorem floodNonces_keys_nodup : (floodNonces.map nonceToKey).Nodup := by
  rw [floodNonces, List.map_map]
  refine List.Nodup.map_on ?_ (List.nodup_range 100001)
  intro i hi j hj h
  rw [List.mem_range] at hi hj
  exact floodNonce_inj i j (by omega) (by omega) h

theorem jsSlice_length (b : Bytes) (a c : Nat) :
    (jsSlice b a c).length = min (c - a) (b.length - a) := by
  simp [jsSlice]

/-! ## Concrete fixtures shared by the claim evaluations -/

/-- A sample remote DH public key. -/
def sampleDh : Bytes := List.replicate 32 9

/-- A sample local ephemeral pair. -/
def sampleEph : EphemeralKeyPair := ⟨List.replicate 32 4, List.replicate 32 3⟩

/-- A receiver mid-session: the receiving chain for `sampleDh` is installed
at index 0 and the skipped-key cache is empty. -/
def sampleRecvState : RatchetState :=
  { createRatchetState with
      rootKey := List.replicate 32 5
      sendingEphemeralKey := some sampleEph
      receivingEphemeralPublicKey := some sampleDh
      receivingChainKey := some ⟨List.replicate 32 6, 0⟩ }

/-! ## Claim C1 -/

/-- The shared root key of the C1 ratchet pair. -/
def c1root : Bytes := List.replicate 32 5

/-- A's sending ephemeral pair. -/
def c1ephA : EphemeralKeyPair := ⟨List.replicate 32 1, List.replicate 32 2⟩

/-- B's own ephemeral pair (B learns A's public key from the header). -/
def c1ephB : EphemeralKeyPair := ⟨List.replicate 32 4, List.replicate 32 3⟩

/-- A as the handshake leaves it: `createRatchetState` then
`initializeRatchet` with the root key and the sending ephemeral. -/
def c1stateA : RatchetState := initializeRatchet createRatchetState c1root (some c1ephA) none

/-- B initialized from the same root key. -/
def c1stateB : RatchetState := initializeRatchet createRatchetState c1root (some c1ephB) none

/-- The round trip of claim C1: encrypt `[42]` with A, decrypt with B. -/
def c1roundTrip : Except String (Bytes × RatchetState) := do
  let (ed, _) ← encryptMessage trivialPrims [42] c1stateA (zeros 12) (zeros 12)
    c1ephA (zeros 16) 0 0
  decryptMessage trivialPrims ed c1stateB (zeros 12) 0

set_option maxRecDepth 100000 in
/-- C1: the ratchet round trip fails on the code.  `encryptMessage` assigns
the frame the sequence `sendCounter++`, which is `NaN` because
`createRatchetState` never initializes `sendCounter`; `decryptMessage`
compares it with the (equally uninitialized) `receiveCounter` using `!==`
and throws `Sequence mismatch` before touching the ratchet.  (Even with
initialized counters the receive path decrypts the header under the raw
receiving chain key with a freshly random IV, so it could never recover the
plaintext.)  The claim that decryption returns the plaintext is false. -/
theorem c1_roundtrip_fails : c1roundTrip = .error "Sequence mismatch" := rfl

/-! ## Claim C2 -/

set_option maxRecDepth 100000 in
/-- C2: decrypting message number 2 on a chain at index 0 must, per the
claim, cache message keys for both skipped indices 0 and 1.  The code's
guard `currentIndex < messageNumber - 1` stores only index 0: the cache's
key set afterwards is `[0]`, and index 1's key is derived and dropped.  The
second conjunct confirms the `TooManySkipped` half of the claim: a skip
count of 1001 (> 1000) throws. -/
theorem c2_skipped_key_dropped :
    Except.map (fun p => ((p.2.skippedMessageKeys.map Prod.fst), p.1.index))
      (ratchetDecrypt trivialPrims sampleRecvState sampleDh 2 0) = .ok ([0], 2)
    ∧ ratchetDecrypt trivialPrims sampleRecvState sampleDh 1001 0 =
        .error "Too many skipped messages" := ⟨rfl, rfl⟩

/-! ## Claim C3 -/

/-- C3: `hkdfExpand` drops the info for the first output block — it HMACs
`temp.slice(32)` although block 1's info was written at offset 0 — so for
every primitive suite and every input key material the 32-byte outputs for
the distinct info strings `info1` and `info2` coincide, refuting domain
separation (and the repository's own test `derives different keys for
different info`). -/
theorem c3_hkdf_info_dropped :
    asciiBytes "info1" ≠ asciiBytes "info2" ∧
    ∀ (P : CryptoPrims) (ikm : Bytes),
      hkdf P ikm none (asciiBytes "info1") 32 = hkdf P ikm none (asciiBytes "info2") 32 :=
  ⟨by decide, fun _ _ => rfl⟩

/-! ## Claim C4 -/

/-- The initiator identity pair of the C4 run. -/
def c4identityKey : IdentityKeyPair := ⟨List.replicate 32 1, List.replicate 64 2⟩

/-- The initiator ephemeral pair of the C4 run. -/
def c4ephemeralKey : EphemeralKeyPair := ⟨List.replicate 32 2, List.replicate 32 1⟩

/-- The handshake nonce of the C4 run. -/
def c4nonce : Bytes := List.replicate 16 3

/-- The InitiatorInit frame at `Date.now() = 1`. -/
def c4message : Bytes :=
  (createHandshakeInit trivialPrims c4identityKey c4ephemeralKey 1 c4nonce).1

/-- The responder identity of the C4 run. -/
def c4serverIdentity : IdentityKeyPair := ⟨List.replicate 32 11, List.replicate 64 12⟩

/-- The responder ephemeral pair of the C4 run. -/
def c4serverEph : EphemeralKeyPair := ⟨List.replicate 32 13, List.replicate 32 14⟩

set_option maxRecDepth 100000 in
/-- C4: the frame is 152 bytes with the claimed field order and the claimed
signature input, but the timestamp field is written by `BigUint64Array` in
platform byte order — little-endian — not big-endian: at timestamp 1 the
wire bytes are `01 00 00 00 00 00 00 00`, which a big-endian parser reads
as 2^56; the responder accepts the frame because it parses the same
little-endian layout. -/
theorem c4_timestamp_not_big_endian :
    c4message.length = 152 ∧
    jsSlice c4message 0 32 = c4ephemeralKey.publicKey ∧
    jsSlice c4message 32 64 = c4identityKey.publicKey ∧
    jsSlice c4message 64 128 = trivialPrims.ed25519Sign c4identityKey.privateKey
      (c4ephemeralKey.publicKey ++ c4identityKey.publicKey ++ le64 1 ++ c4nonce) ∧
    jsSlice c4message 136 152 = c4nonce ∧
    jsSlice c4message 128 136 = [1, 0, 0, 0, 0, 0, 0, 0] ∧
    be64 1 = [0, 0, 0, 0, 0, 0, 0, 1] ∧
    jsSlice c4message 128 136 ≠ be64 1 ∧
    le64dec (jsSlice c4message 128 136) = 1 ∧
    be64dec (jsSlice c4message 128 136) = 72057594037927936 ∧
    (processHandshakeInit trivialPrims c4message c4serverIdentity c4serverEph 1
      (zeros 32) (zeros 12) (zeros 16) 1).isOk = true := by
  refine ⟨rfl, rfl, rfl, rfl, rfl, rfl, rfl, by decide, rfl, rfl, rfl⟩

/-! ## Claim C8 -/

/-- The client identity of the C8 run. -/
def c8identityKey : IdentityKeyPair := ⟨List.replicate 32 1, List.replicate 64 2⟩

/-- The client ephemeral pair of the C8 run. -/
def c8ephemeralKey : EphemeralKeyPair := ⟨List.replicate 32 2, List.replicate 32 1⟩

/-- A well-formed 116-byte ResponderReply at timestamp 0. -/
def c8response : Bytes :=
  List.replicate 32 7 ++ List.replicate 32 8 ++ zeros 16 ++ zeros 12 ++ le64 0 ++ zeros 16

/-- The client's InitiatorInit frame. -/
def c8initFrame : Bytes :=
  (createHandshakeInit trivialPrims c8identityKey c8ephemeralKey 0 (zeros 16)).1

/-- The client's explicit confirmation frame (32 random bytes). -/
def c8confirmationFrame : Bytes := createHandshakeComplete fun _ => 7

set_option maxRecDepth 100000 in
/-- C8: after successfully processing the ResponderReply the client DOES
send a distinct handshake-complete frame: `performHandshake` calls
`createHandshakeComplete` and writes its 32 random bytes to the socket, so
the channel writes are `[152-byte init, 32-byte confirmation]` — the next
bytes after the init are not an encrypted message frame (every
`serializeMessage` output is at least 40 bytes). -/
theorem c8_confirmation_frame_sent :
    clientHandshakeWrites trivialPrims c8identityKey c8ephemeralKey 0 (zeros 16)
        c8response (fun _ => 7) = .ok [c8initFrame, c8confirmationFrame] ∧
    c8initFrame.length = 152 ∧
    c8confirmationFrame.length = 32 ∧
    (∀ ed : EncryptedMessageData, 40 ≤ (serializeMessage ed).length) := by
  refine ⟨rfl, rfl, rfl, ?_⟩
  intro ed
  simp only [serializeMessage, be32, be64, zeros, List.length_append,
    List.length_take, List.length_replicate, List.length_cons, List.length_nil]
  omega

/-! ## Claim C9 -/

/-- The sender's ephemeral pair of the C9 run. -/
def c9ephemeralKey : EphemeralKeyPair := ⟨List.replicate 32 1, List.replicate 32 2⟩

/-- A freshly created and initialized sender state. -/
def c9state : RatchetState :=
  initializeRatchet createRatchetState (List.replicate 32 5) (some c9ephemeralKey) none

set_option maxRecDepth 100000 in
/-- C9: the invariant `sendCounter == sendingChainKey.index` fails.
`createRatchetState` leaves `sendCounter` undefined; `initializeRatchet`
does not set it either; the first `encryptMessage` runs `sendCounter++` on
`undefined`, so the frame's sequence is `NaN` (not the message key's index
0) and afterwards `sendCounter` is `NaN` while `sendingChainKey.index`
is 1. -/
theorem c9_send_counter_uninitialized :
    c9state.sendCounter = JsNum.undef ∧
    Except.map
        (fun p => (p.1.sequence, p.2.sendCounter, Option.map ChainKey.index p.2.sendingChainKey))
        (encryptMessage trivialPrims [42] c9state (zeros 12) (zeros 12)
          c9ephemeralKey (zeros 16) 0 0)
      = .ok (JsNum.nan, JsNum.nan, some 1) := ⟨rfl, rfl⟩

/-! ## Claim C5 -/

/-- C5 (amended): `ratchetDecrypt` never evicts cache entries — each call
adds at most 999 entries (the skip loop stores at most `skipCount - 1 ≤
999` keys) and removes at most one (the consumed old-chain key); there is
no 1000-entry cap on the cache itself, which therefore can exceed 1000
across calls (see the counterexample reaching 1998). -/
theorem c5_cache_growth_bound (P : CryptoPrims) (s : RatchetState) (dh : Bytes)
    (m tNow : Nat) (mk : MessageKey) (s' : RatchetState)
    (h : ratchetDecrypt P s dh m tNow = .ok (mk, s')) :
    s'.skippedMessageKeys.length ≤ s.skippedMessageKeys.length + 999 ∧
    s.skippedMessageKeys.length ≤ s'.skippedMessageKeys.length + 1 := by
  rcases ratchetDecrypt_skipped_cases P s dh m tNow mk s' h with hc | hc | ⟨key, i, hi, hle, hc⟩
  · rw [hc]
    exact ⟨by have := length_mapDelete_le s.skippedMessageKeys m; omega,
           length_le_mapDelete s.skippedMessageKeys m⟩
  · rw [hc]; omega
  · rw [hc]
    constructor
    · have := skipLoop_length_le P m (m - i) i key s.skippedMessageKeys (by omega)
      omega
    · have := skipLoop_length_ge P m (m - i) i key s.skippedMessageKeys
      omega

/-- The witness run for C5: a two-index skip on `sampleRecvState`. -/
def c5wRun : Except String (MessageKey × RatchetState) :=
  ratchetDecrypt trivialPrims sampleRecvState sampleDh 2 0

/-- The message key the witness run returns. -/
def c5wKey : MessageKey :=
  match c5wRun with | .ok p => p.1 | .error _ => ⟨[], [], [], 0⟩

/-- The state the witness run returns. -/
def c5wState : RatchetState :=
  match c5wRun with | .ok p => p.2 | .error _ => createRatchetState

set_option maxRecDepth 100000 in
/-- Witness for C5 at a concrete successful decrypt. -/
theorem c5_cache_growth_bound_witness :
    c5wState.skippedMessageKeys.length ≤ sampleRecvState.skippedMessageKeys.length + 999 ∧
    sampleRecvState.skippedMessageKeys.length ≤ c5wState.skippedMessageKeys.length + 1 :=
  c5_cache_growth_bound trivialPrims sampleRecvState sampleDh 2 0 c5wKey c5wState rfl

/-- First counterexample run: skip to message 1000 (caches indices
0 … 998). -/
def c5run1 : Except String (MessageKey × RatchetState) :=
  ratchetDecrypt trivialPrims sampleRecvState sampleDh 1000 0

/-- State after the first run. -/
def c5state1 : RatchetState :=
  match c5run1 with | .ok p => p.2 | .error _ => createRatchetState

/-- Second counterexample run: skip on to message 2001 (caches indices
1001 … 1999 on top). -/
def c5run2 : Except String (MessageKey × RatchetState) :=
  ratchetDecrypt trivialPrims c5state1 sampleDh 2001 0

/-- State after the second run. -/
def c5state2 : RatchetState :=
  match c5run2 with | .ok p => p.2 | .error _ => createRatchetState

/-- The skip loop of the first counterexample run (the verbatim term the
decrypt produces). -/
def c5loop1 : Bytes × SkippedMap :=
  skipLoop trivialPrims 1000 (1000 - 0) (List.replicate 32 6) 0
    sampleRecvState.skippedMessageKeys

/-- The state the first counterexample run leaves. -/
def c5mid : RatchetState :=
  { sampleRecvState with
      receivingChainKey := some ⟨(deriveMessageKey trivialPrims c5loop1.1).2, 1000 + 1⟩,
      skippedMessageKeys := c5loop1.2 }

/-- The skip loop of the second counterexample run. -/
def c5loop2 : Bytes × SkippedMap :=
  skipLoop trivialPrims 2001 (2001 - (1000 + 1)) (deriveMessageKey trivialPrims c5loop1.1).2
    (1000 + 1) c5mid.skippedMessageKeys

set_option maxRecDepth 100000 in
set_option maxHeartbeats 2000000 in
/-- Counterexample to C5: after two in-bounds `ratchetDecrypt` calls the
skipped-key cache holds 1998 entries — far above the claimed 1000-entry
cap — because no insert ever evicts. -/
theorem c5_cache_exceeds_cap :
    c5state1.skippedMessageKeys.length = 999 ∧
    c5state2.skippedMessageKeys.length = 1998 ∧
    1000 < c5state2.skippedMessageKeys.length := by
  have hrun1 := ratchetDecrypt_same_chain_skip trivialPrims sampleRecvState sampleDh
    1000 0 sampleDh (List.replicate 32 6) 0 rfl (by decide) (by decide) rfl
    (by decide) (by decide)
  have hs1 : c5state1 = c5mid := by
    unfold c5state1 c5run1
    rw [hrun1]
    rfl
  have hlen1 : c5loop1.2.length =
      sampleRecvState.skippedMessageKeys.length + ((1000 - 0) - 1) :=
    skipLoop_length_eq trivialPrims 1000 (1000 - 0) 0 (List.replicate 32 6)
      sampleRecvState.skippedMessageKeys (by omega) (fun j _ => rfl)
  have hlen1' : c5loop1.2.length = 999 := by
    rw [hlen1, show sampleRecvState.skippedMessageKeys.length = 0 from rfl]
  have hrun2 := ratchetDecrypt_same_chain_skip trivialPrims c5mid sampleDh
    2001 0 sampleDh (deriveMessageKey trivialPrims c5loop1.1).2 (1000 + 1)
    rfl (by decide) (by decide) rfl (by decide) (by decide)
  have hfresh2 : ∀ j, 1000 + 1 ≤ j → mapGet c5mid.skippedMessageKeys j = none := by
    intro j hj
    have h := skipLoop_get_ge trivialPrims 1000 (1000 - 0) 0 (List.replicate 32 6)
      sampleRecvState.skippedMessageKeys j (by omega)
    exact h.trans rfl
  have hlen2 : c5loop2.2.length =
      c5mid.skippedMessageKeys.length + ((2001 - (1000 + 1)) - 1) :=
    skipLoop_length_eq trivialPrims 2001 (2001 - (1000 + 1)) (1000 + 1)
      (deriveMessageKey trivialPrims c5loop1.1).2 c5mid.skippedMessageKeys
      (by omega) hfresh2
  have hmid : c5mid.skippedMessageKeys.length = 999 := hlen1'
  have hlen2' : c5loop2.2.length = 1998 := by
    rw [hlen2, hmid]
  have hs2 : c5state2.skippedMessageKeys = c5loop2.2 := by
    unfold c5state2 c5run2
    rw [hs1, hrun2]
    rfl
  refine ⟨by rw [hs1]; exact hlen1', by rw [hs2]; exact hlen2', by rw [hs2]; omega⟩

/-! ## Claim C10 -/

/-- C10: the skipped-key cache is keyed by the bare message index.  First
conjunct: every successful `ratchetDecrypt` preserves "at most one entry
per index" (distinctness of the cache's keys).  Second conjunct: after a
DH step (new remote key `dh`), every index `j` the skip loop covers maps
to the key derived from the NEW receiving chain — overwriting whatever key
an older chain had retained at `j`, which is thereafter irrecoverable. -/
theorem c10_cache_keyed_by_bare_index (P : CryptoPrims) :
    (∀ (s : RatchetState) (dh : Bytes) (m tNow : Nat) (mk : MessageKey) (s' : RatchetState),
      ratchetDecrypt P s dh m tNow = .ok (mk, s') →
      (s.skippedMessageKeys.map Prod.fst).Nodup →
      (s'.skippedMessageKeys.map Prod.fst).Nodup) ∧
    (∀ (s : RatchetState) (dh : Bytes) (m tNow : Nat) (mk : MessageKey) (s' : RatchetState)
        (oldPub : Bytes) (eph : EphemeralKeyPair) (j : Nat),
      ratchetDecrypt P s dh m tNow = .ok (mk, s') →
      s.receivingEphemeralPublicKey = some oldPub →
      constantTimeEqual oldPub dh = false →
      s.sendingEphemeralKey = some eph →
      (Option.map ChainKey.index s.receivingChainKey).getD 0 ≤ m →
      j + 1 < m →
      mapGet s'.skippedMessageKeys j =
        some (skippedKeyFromChain P (newReceivingChainKey P s dh eph tNow) 0 j)) := by
  constructor
  · intro s dh m tNow mk s' h hn
    rcases ratchetDecrypt_skipped_cases P s dh m tNow mk s' h with hc | hc | ⟨key, i, _, _, hc⟩
    · rw [hc]; exact nodup_keys_mapDelete _ _ hn
    · rw [hc]; exact hn
    · rw [hc]; exact skipLoop_nodup P m (m - i) i key _ hn
  · intro s dh m tNow mk s' oldPub eph j h h1 h2 h3 h4 h5
    rw [ratchetDecrypt_dh_skip P s dh m tNow mk s' oldPub eph h h1 h2 h3 h4 (by omega)]
    exact skipLoop_get_stored P m m 0 (newReceivingChainKey P s dh eph tNow)
      s.skippedMessageKeys j (by omega) (by omega) h5

/-- An old-chain message key retained at index 0 before the DH step. -/
def c10wOldKey : MessageKey := ⟨List.replicate 32 7, List.replicate 32 8, zeros 12, 0⟩

/-- A receiver holding a retained skipped key at index 0 from the chain of
an older remote ephemeral key. -/
def c10wState : RatchetState :=
  { createRatchetState with
      rootKey := List.replicate 32 5
      sendingEphemeralKey := some sampleEph
      receivingEphemeralPublicKey := some (List.replicate 32 10)
      receivingChainKey := some ⟨List.replicate 32 6, 3⟩
      skippedMessageKeys := [(0, c10wOldKey)] }

/-- The C10 witness run: a DH step (new remote key) skipping to message 3. -/
def c10wRun : Except String (MessageKey × RatchetState) :=
  ratchetDecrypt trivialPrims c10wState sampleDh 3 0

/-- The message key of the C10 witness run. -/
def c10wKey : MessageKey :=
  match c10wRun with | .ok p => p.1 | .error _ => ⟨[], [], [], 0⟩

/-- The state after the C10 witness run. -/
def c10wStateAfter : RatchetState :=
  match c10wRun with | .ok p => p.2 | .error _ => createRatchetState

set_option maxRecDepth 100000 in
/-- Witness for C10: the DH-step skip overwrites the retained index-0 key
with the new chain's key. -/
theorem c10_cache_keyed_by_bare_index_witness :
    mapGet c10wStateAfter.skippedMessageKeys 0 =
      some (skippedKeyFromChain trivialPrims
        (newReceivingChainKey trivialPrims c10wState sampleDh sampleEph 0) 0 0) :=
  (c10_cache_keyed_by_bare_index trivialPrims).2 c10wState sampleDh 3 0 c10wKey
    c10wStateAfter (List.replicate 32 10) sampleEph 0 rfl rfl (by decide) rfl
    (by decide) (by decide)

/-! ## Claim C6 -/

/-- C6: sequence strictness of the relay's Active-state handler.  For every
frame that carries an outer sequence number (`parseOuterSequence` succeeds):
a mismatch with `expectedSequence` closes the channel with 1007 and emits
no ack, leaving the session unchanged; a match increments
`expectedSequence` and emits exactly the ack for the frame's message id. -/
theorem c6_sequence_strict (frame : Bytes) (session : ClientSession) (tNow : Nat)
    (msgId : Bytes) (seq : Nat)
    (h : parseOuterSequence frame = some (msgId, seq)) :
    (seq ≠ session.expectedSequence →
      handleEncryptedMessage frame session tNow =
        ([.close 1007 "Sequence error"], session)) ∧
    (seq = session.expectedSequence →
      handleEncryptedMessage frame session tNow =
        ([.send (createAck msgId tNow)],
         { session with
             expectedSequence := session.expectedSequence + 1
             messageCount := session.messageCount + 1
             lastMessageTime := tNow })) := by
  unfold parseOuterSequence at h
  by_cases h20 : frame.length < 20
  · rw [if_pos h20] at h; simp at h
  rw [if_neg h20] at h
  by_cases hfit : frame.length < 20 + be32dec (jsSlice frame 16 20)
  · rw [if_pos hfit] at h; simp at h
  rw [if_neg hfit] at h
  by_cases hl4 : be32dec (jsSlice frame 16 20) < 4
  · rw [if_pos hl4] at h; simp at h
  rw [if_neg hl4] at h
  simp only [Option.some.injEq, Prod.mk.injEq] at h
  obtain ⟨hmsg, hseq⟩ := h
  have hdr4 : 4 ≤ (jsSlice frame 20 (20 + be32dec (jsSlice frame 16 20))).length := by
    rw [jsSlice_length]; omega
  unfold handleEncryptedMessage
  rw [if_neg h20, if_neg hfit, if_pos hdr4]
  subst hmsg
  subst hseq
  constructor
  · intro hne
    rw [if_pos hne]
  · intro heq
    rw [if_neg (not_not_intro heq)]

/-- The witness frame for C6: header length 60, outer sequence 0. -/
def c6frame : Bytes := List.replicate 16 1 ++ be32 60 ++ zeros 60

/-- The witness session for C6: `expectedSequence = 0`. -/
def c6session : ClientSession :=
  { clientId := "client"
    connectedAt := 0
    messageCount := 0
    handshakeCount := 0
    lastMessageTime := 0
    lastHandshakeTime := 0
    handshakeComplete := true
    expectedSequence := 0 }

/-- Witness for C6 at a concrete frame and session. -/
theorem c6_sequence_strict_witness :
    ((0 : Nat) ≠ c6session.expectedSequence →
      handleEncryptedMessage c6frame c6session 5 =
        ([.close 1007 "Sequence error"], c6session)) ∧
    ((0 : Nat) = c6session.expectedSequence →
      handleEncryptedMessage c6frame c6session 5 =
        ([.send (createAck (List.replicate 16 1) 5)],
         { c6session with
             expectedSequence := c6session.expectedSequence + 1
             messageCount := c6session.messageCount + 1
             lastMessageTime := 5 })) :=
  c6_sequence_strict c6frame c6session 5 (List.replicate 16 1) 0 (by decide)

/-! ## Claim C7 -/

/-- C7 (amended): `check` returns replay exactly when the nonce is present
and unexpired; otherwise it records the nonce at `now`; the map grows by at
most one entry per call; and when the map is at the 100000 cap the insert
evicts an entry ONLY when some entry's timestamp is strictly older than
`now` — when every entry was first seen at `now`, nothing is evicted and
the size exceeds the cap (see the flood counterexample). -/
theorem c7_nonce_check_amended (t : NonceTracker) (nonce : Bytes) (now : Nat) :
    ((NonceTracker.check t nonce now).1 = false ↔
      ∃ ts, nmapGet t.used (nonceToKey nonce) = some ts ∧ now - ts < t.ttlMs) ∧
    ((NonceTracker.check t nonce now).1 = true →
      nmapGet (NonceTracker.check t nonce now).2.used (nonceToKey nonce) = some now) ∧
    (NonceTracker.check t nonce now).2.used.length ≤ t.used.length + 1 ∧
    (t.maxSize ≤ t.used.length → nmapGet t.used (nonceToKey nonce) = none →
      (∃ p ∈ t.used, p.2 < now) →
      (NonceTracker.check t nonce now).2.used.length ≤ t.used.length) := by
  unfold NonceTracker.check
  cases hget : nmapGet t.used (nonceToKey nonce) with
  | some existing =>
    by_cases htl : now - existing < t.ttlMs
    · simp only [hget, htl, if_true]
      refine ⟨⟨fun _ => ⟨existing, rfl, htl⟩, fun _ => trivial⟩, ?_, by simp, ?_⟩
      · intro hcontra; simp at hcontra
      · intro _ hnone _; simp at hnone
    · simp only [hget, htl, if_false]
      refine ⟨⟨fun hcontra => by simp at hcontra, ?_⟩, fun _ => nmapGet_set_self _ _ _, ?_, ?_⟩
      · rintro ⟨ts, hts, htlts⟩
        simp only [Option.some.injEq] at hts
        exact absurd (hts ▸ htlts) htl
      · by_cases hc : t.maxSize ≤ t.used.length
        · simp only [hc, if_true]
          have h1 := length_nmapSet_le (NonceTracker.evictOldest t.used now)
            (nonceToKey nonce) now
          have h2 := evictOldest_length_le t.used now
          omega
        · simp only [hc, if_false]
          exact length_nmapSet_le t.used (nonceToKey nonce) now
      · intro _ hnone _; simp at hnone
  | none =>
    simp only [hget]
    refine ⟨⟨fun hcontra => by simp at hcontra, ?_⟩, fun _ => nmapGet_set_self _ _ _, ?_, ?_⟩
    · rintro ⟨ts, hts, _⟩
      simp at hts
    · by_cases hc : t.maxSize ≤ t.used.length
      · simp only [hc, if_true]
        have h1 := length_nmapSet_le (NonceTracker.evictOldest t.used now)
          (nonceToKey nonce) now
        have h2 := evictOldest_length_le t.used now
        omega
      · simp only [hc, if_false]
        exact length_nmapSet_le t.used (nonceToKey nonce) now
    · intro hc _ hex
      simp only [hc, if_true]
      have h1 := evictOldest_shrinks t.used now hex
      have h2 : nmapGet (NonceTracker.evictOldest t.used now) (nonceToKey nonce) = none :=
        evictOldest_get_none t.used now (nonceToKey nonce) hget
      rw [nmapSet_of_get_none _ _ _ h2]
      simp only [List.length_append, List.length_cons, List.length_nil]
      omega

/-- Counterexample to C7: 100001 distinct nonces all first seen in the same
millisecond drive the tracker to 100001 entries — above the claimed hard
100000 bound — because `evictOldest` never evicts an entry whose timestamp
is not strictly older than `Date.now()`. -/
theorem c7_tracker_exceeds_cap :
    (NonceTracker.checkAll (NonceTracker.create (some 300000) (some 100000))
      floodNonces 0).used.length = 100001 ∧
    100000 < (NonceTracker.checkAll (NonceTracker.create (some 300000) (some 100000))
      floodNonces 0).used.length := by
  have h := checkAll_fresh_length floodNonces
    (NonceTracker.create (some 300000) (some 100000)) (fun n _ => rfl)
    floodNonces_keys_nodup
  have hlen : floodNonces.length = 100001 := by simp [floodNonces]
  have hempty : (NonceTracker.create (some 300000) (some 100000)).used.length = 0 := rfl
  omega

end Messenger
